import Mathlib

/-!
# Verification of the constituent-unification core (identity_resolver.py)

A shallow embedding of `src/constituent_unification/identity_resolver.py`:
record normalization, the fallback Jaro-Winkler-style string similarity,
the pairwise comparator, the lookup indices and match finder, the conflict
resolver, and the union-find based unifier.  Python floats are modelled by
`ℚ`, Python `datetime` values by `ℕ`, Python `dict`s (which preserve
insertion order) by association lists with in-place update, and Python
`set`s by lists used only through membership.
-/

/-- Python truthiness of an `Optional[str]`: `None` and `""` are falsy. -/
def pyTruthyS : Option String → Bool
  | none => false
  | some s => !(s == "")

/-- Python `str.lower()` (ASCII-level, as used on the e-mails/names here). -/
def pyLower (s : String) : String := String.mk (s.data.map Char.toLower)

/-- Python `str.strip()`: drop leading and trailing whitespace. -/
def pyStrip (s : String) : String :=
  String.mk (((s.data.dropWhile Char.isWhitespace).reverse.dropWhile
    Char.isWhitespace).reverse)

/-- Python `a.startswith(b)`. -/
def pyStartsWith (s pre : String) : Bool := pre.data.isPrefixOf s.data

/-- Python `str.split()` with no separator: split on whitespace runs,
dropping empty pieces. -/
def pySplit (s : String) : List String :=
  (s.split Char.isWhitespace).filter (fun p => !(p == ""))

/-- Python `len` of a string. -/
def pyLen (s : String) : Nat := s.data.length

/-- A Python `dict` with string keys: an association list in insertion
order, updated in place. -/
def PyDict (β : Type) : Type := List (String × β)

namespace PyDict

def entries {β : Type} (d : PyDict β) : List (String × β) := d

def get? {β : Type} (d : PyDict β) (k : String) : Option β :=
  ((entries d).find? (fun p => p.1 == k)).map (·.2)

def contains {β : Type} (d : PyDict β) (k : String) : Bool :=
  (entries d).any (fun p => p.1 == k)

/-- `d[k] = v`: update in place if the key exists, else append. -/
def set {β : Type} (d : PyDict β) (k : String) (v : β) : PyDict β :=
  if contains d k then
    (entries d).map (fun p => if p.1 == k then (k, v) else p)
  else (entries d) ++ [(k, v)]

def keys {β : Type} (d : PyDict β) : List String := (entries d).map (·.1)

def size {β : Type} (d : PyDict β) : Nat := (entries d).length

end PyDict

/-- The fallback `jaro_winkler_similarity` defined in the source when
`jellyfish` is unavailable: 1.0 on equal strings, 0.0 when either side is
empty, otherwise (after lower-casing) the number of characters of `s1`
that occur in both strings, divided by the longer length. -/
def jaro_winkler_similarity (s1 s2 : String) : ℚ :=
  if s1 = s2 then 1
  else if s1 = "" ∨ s2 = "" then 0
  else
    let l1 := (pyLower s1).data
    let l2 := (pyLower s2).data
    let common := (l1.filter (fun c => l2.contains c)).dedup
    if common = [] then 0
    else (l1.countP (fun c => common.contains c) : ℚ) / (max l1.length l2.length : ℚ)

/-- `MatchType` from the source. -/
inductive MatchType : Type
  | deterministic_email
  | deterministic_phone
  | probabilistic
  | manual_review
  | no_match
  deriving DecidableEq, Repr

/-- `MatchConfig`: matching policy.  The Python `Set[str]` of generic
prefixes is modelled by a list (only membership is ever used). -/
structure MatchConfig : Type where
  generic_emails : List String
  auto_match_threshold : ℚ
  review_threshold : ℚ
  name_weight : ℚ
  address_weight : ℚ
  phone_weight : ℚ
  email_domain_weight : ℚ
  zip_weight : ℚ
  prefer_most_recent : Bool
  prefer_longest_name : Bool
  deriving DecidableEq, Repr

/-- The dataclass defaults of `MatchConfig`. -/
def defaultMatchConfig : MatchConfig where
  generic_emails := ["info@", "admin@", "support@", "contact@", "hello@",
    "noreply@", "no-reply@", "webmaster@", "postmaster@"]
  auto_match_threshold := 0.85
  review_threshold := 0.70
  name_weight := 0.35
  address_weight := 0.30
  phone_weight := 0.15
  email_domain_weight := 0.10
  zip_weight := 0.10
  prefer_most_recent := true
  prefer_longest_name := true

/-- `SourceRecord`.  Optional timestamps are modelled by `Option ℕ`
(`datetime` values are only ever compared), and the opaque `raw_data`
payload by a string association list. -/
structure SourceRecord : Type where
  source_system : String
  source_id : String
  email : Option String := none
  phone : Option String := none
  first_name : Option String := none
  last_name : Option String := none
  full_name : Option String := none
  address_line1 : Option String := none
  city : Option String := none
  state : Option String := none
  zip_code : Option String := none
  created_at : Option ℕ := none
  updated_at : Option ℕ := none
  raw_data : List (String × String) := []
  deriving DecidableEq, Repr

namespace SourceRecord

/-- `SourceRecord._normalize_phone`: keep only digits; drop a leading `1`
from an 11-digit result; if that leaves exactly 10 digits return them,
otherwise return the original string unchanged. -/
def normalize_phone (phone : String) : String :=
  let digits := phone.data.filter Char.isDigit
  let digits :=
    if digits.length = 11 ∧ digits.head? = some '1' then digits.tail else digits
  if digits.length = 10 then String.mk digits else phone

/-- The field normalization performed by `SourceRecord.__post_init__`,
applied to an optional field only when the value is truthy. -/
def normField (f : String → String) : Option String → Option String
  | none => none
  | some s => if s == "" then some s else some (f s)

/-- Zip normalization from `__post_init__`: truncate to the first five
characters when at least five are present. -/
def normZip (z : String) : String :=
  if 5 ≤ pyLen z then String.mk (z.data.take 5) else z

/-- `__post_init__`: normalize a freshly constructed record. -/
def postInit (r : SourceRecord) : SourceRecord :=
  { r with
    email := normField (fun s => pyStrip (pyLower s)) r.email
    phone := normField normalize_phone r.phone
    first_name := normField pyStrip r.first_name
    last_name := normField pyStrip r.last_name
    full_name := normField pyStrip r.full_name
    zip_code := normField normZip r.zip_code }

/-- `SourceRecord.record_key`: `f"{source_system}:{source_id}"`. -/
def record_key (r : SourceRecord) : String :=
  r.source_system ++ ":" ++ r.source_id

end SourceRecord

/-- `MatchResult`.  `matched_at` defaults to `datetime.now()`, which is
modelled by the constant 0 (no claim depends on wall-clock values). -/
structure MatchResult : Type where
  record_a : SourceRecord
  record_b : SourceRecord
  match_type : MatchType
  confidence : ℚ
  feature_scores : List (String × ℚ) := []
  match_reasons : List String := []
  matched_at : ℕ := 0
  deriving DecidableEq, Repr

/-- `UnifiedConstituent`.  The wall-clock `created_at`/`updated_at`
defaults are modelled by the constant 0. -/
structure UnifiedConstituent : Type where
  constituent_id : String
  canonical_email : Option String := none
  canonical_first_name : Option String := none
  canonical_last_name : Option String := none
  canonical_phone : Option String := none
  canonical_address_line1 : Option String := none
  canonical_city : Option String := none
  canonical_state : Option String := none
  canonical_zip : Option String := none
  source_records : List SourceRecord := []
  match_history : List MatchResult := []
  created_at : ℕ := 0
  updated_at : ℕ := 0
  deriving DecidableEq, Repr

/-! ## IdentityResolver: pairwise comparator and feature scorers

The resolver's methods are embedded as functions of the `MatchConfig`
(the only state they read); the mutable indices of the resolver are
passed explicitly to `find_matches`. -/

/-- `IdentityResolver._is_generic_email`: an empty email is generic, and
so is one whose lower-cased form starts with a configured prefix. -/
def is_generic_email (cfg : MatchConfig) (email : String) : Bool :=
  if email == "" then true
  else cfg.generic_emails.any (fun g => pyStartsWith (pyLower email) g)

/-- `IdentityResolver._extract_name_parts`: first/last fields when both
are truthy, otherwise a whitespace split of the full name. -/
def extract_name_parts (r : SourceRecord) : String × String :=
  if pyTruthyS r.first_name ∧ pyTruthyS r.last_name then
    (pyLower (r.first_name.getD ""), pyLower (r.last_name.getD ""))
  else if pyTruthyS r.full_name then
    let parts := pySplit (pyStrip (r.full_name.getD ""))
    if 2 ≤ parts.length then
      (pyLower (parts.headD ""), pyLower (parts.getLastD ""))
    else if parts.length = 1 then (pyLower (parts.headD ""), "")
    else ("", "")
  else ("", "")

/-- `IdentityResolver._calculate_name_similarity`. -/
def calculate_name_similarity (a b : SourceRecord) : ℚ :=
  let fa := (extract_name_parts a).1
  let la := (extract_name_parts a).2
  let fb := (extract_name_parts b).1
  let lb := (extract_name_parts b).2
  if (fa = "" ∧ la = "") ∨ (fb = "" ∧ lb = "") then 0
  else
    let first_sim := if fa ≠ "" ∧ fb ≠ "" then jaro_winkler_similarity fa fb else 0
    let last_sim := if la ≠ "" ∧ lb ≠ "" then jaro_winkler_similarity la lb else 0
    first_sim * 0.4 + last_sim * 0.6

/-- Python word characters, as used by the `\b` boundary in `re`. -/
def isWordChar (c : Char) : Bool := c.isAlphanum || c == '_'

/-- One `re.sub` pass for a pattern of the shape `\bword\b` with a literal
word: replace every non-overlapping word-boundary occurrence of `w` by
`rep`, scanning left to right.  `prev` is the character just before the
current position (`none` at the start); `fuel` bounds the recursion by the
length of the remaining input. -/
def subWordAux (w rep : List Char) : ℕ → Option Char → List Char → List Char
  | 0, _, s => s
  | _ + 1, _, [] => []
  | fuel + 1, prev, c :: rest =>
    let s := c :: rest
    let boundaryBefore : Bool := match prev with
      | none => true
      | some p => !(isWordChar p)
    let after := s.drop w.length
    let boundaryAfter : Bool := match after.head? with
      | none => true
      | some q => !(isWordChar q)
    if boundaryBefore && (s.take w.length == w) && boundaryAfter then
      rep ++ subWordAux w rep fuel w.getLast? after
    else c :: subWordAux w rep fuel (some c) rest

/-- `re.sub(r'\bword\b', rep, s)` for a literal word. -/
def subWord (w rep : String) (s : List Char) : List Char :=
  subWordAux w.data rep.data (s.length + 1) none s

/-- Collapse whitespace runs to a single space, tracking whether the
previous character was part of a run: `re.sub(r'\s+', ' ', s)`. -/
def collapseSpacesAux : Bool → List Char → List Char
  | _, [] => []
  | prevSpace, c :: rest =>
    if c.isWhitespace then
      if prevSpace then collapseSpacesAux true rest
      else ' ' :: collapseSpacesAux true rest
    else c :: collapseSpacesAux false rest

/-- `re.sub(r'\s+', ' ', s)`. -/
def collapseSpaces (s : List Char) : List Char := collapseSpacesAux false s

/-- The ordered replacement table of `IdentityResolver._normalize_address`
(every entry is a `\b`-delimited literal word). -/
def addressReplacements : List (String × String) :=
  [("street", "st"), ("str", "st"), ("avenue", "ave"), ("av", "ave"),
   ("road", "rd"), ("drive", "dr"), ("boulevard", "blvd"), ("lane", "ln"),
   ("court", "ct"), ("apartment", "apt"), ("unit", "apt"), ("suite", "ste"),
   ("north", "n"), ("south", "s"), ("east", "e"), ("west", "w")]

/-- `IdentityResolver._normalize_address`: falsy input gives `""`;
otherwise lower-case, strip, apply the abbreviation table, drop commas and
periods, collapse whitespace, and strip again. -/
def normalize_address (address : Option String) : String :=
  if !(pyTruthyS address) then ""
  else
    let s := (pyStrip (pyLower (address.getD ""))).data
    let s := addressReplacements.foldl (fun acc wr => subWord wr.1 wr.2 acc) s
    let s := s.filter (fun c => !(c == ',' || c == '.'))
    let s := collapseSpaces s
    pyStrip (String.mk s)

/-- `IdentityResolver._calculate_address_similarity`. -/
def calculate_address_similarity (a b : SourceRecord) : ℚ :=
  let na := normalize_address a.address_line1
  let nb := normalize_address b.address_line1
  if na = "" ∨ nb = "" then 0 else jaro_winkler_similarity na nb

/-- Python `s[-7:]`. -/
def pyLast7 (s : String) : List Char := s.data.drop (s.data.length - 7)

/-- `IdentityResolver._calculate_phone_similarity`. -/
def calculate_phone_similarity (a b : SourceRecord) : ℚ :=
  if !(pyTruthyS a.phone) ∨ !(pyTruthyS b.phone) then 0
  else
    let pa := a.phone.getD ""
    let pb := b.phone.getD ""
    if pa = pb then 1
    else if 7 ≤ pyLen pa ∧ 7 ≤ pyLen pb ∧ pyLast7 pa = pyLast7 pb then 0.8
    else 0

/-- The domain part used by the comparator:
`email.split('@')[-1] if '@' in email else ""`. -/
def emailDomain (email : String) : String :=
  if email.data.contains '@' then (email.split (fun c => c == '@')).getLastD ""
  else ""

/-- `IdentityResolver._calculate_email_domain_similarity`. -/
def calculate_email_domain_similarity (a b : SourceRecord) : ℚ :=
  if !(pyTruthyS a.email) ∨ !(pyTruthyS b.email) then 0
  else
    let da := emailDomain (a.email.getD "")
    let db := emailDomain (b.email.getD "")
    if da ≠ "" ∧ da = db then 1 else 0

/-- `IdentityResolver._calculate_zip_similarity`. -/
def calculate_zip_similarity (a b : SourceRecord) : ℚ :=
  if !(pyTruthyS a.zip_code) ∨ !(pyTruthyS b.zip_code) then 0
  else
    let za := (a.zip_code.getD "").data
    let zb := (b.zip_code.getD "").data
    if za.take 5 = zb.take 5 then 1
    else if za.take 3 = zb.take 3 then 0.5
    else 0

/-- `IdentityResolver.compare_records`: deterministic email, then
deterministic phone, then the weighted probabilistic score.  The numeric
interpolations inside the Python reason strings (`f"... ({score:.2f})"`)
are elided; no claim inspects reason texts. -/
def compare_records (cfg : MatchConfig) (a b : SourceRecord) : MatchResult :=
  if pyTruthyS a.email ∧ pyTruthyS b.email ∧ a.email.getD "" = b.email.getD "" ∧
      !(is_generic_email cfg (a.email.getD "")) then
    { record_a := a, record_b := b, match_type := .deterministic_email,
      confidence := 1, feature_scores := [("email_exact", 1)],
      match_reasons := ["Exact email match"] }
  else if pyTruthyS a.phone ∧ pyTruthyS b.phone ∧
      a.phone.getD "" = b.phone.getD "" ∧ 10 ≤ pyLen (a.phone.getD "") then
    { record_a := a, record_b := b, match_type := .deterministic_phone,
      confidence := 0.95, feature_scores := [("phone_exact", 1)],
      match_reasons := ["Exact phone match"] }
  else
    let name_score := calculate_name_similarity a b
    let address_score := calculate_address_similarity a b
    let phone_score := calculate_phone_similarity a b
    let email_domain_score := calculate_email_domain_similarity a b
    let zip_score := calculate_zip_similarity a b
    let feature_scores := [("name_similarity", name_score),
      ("address_similarity", address_score), ("phone_similarity", phone_score),
      ("email_domain", email_domain_score), ("zip_match", zip_score)]
    let confidence := name_score * cfg.name_weight +
      address_score * cfg.address_weight + phone_score * cfg.phone_weight +
      email_domain_score * cfg.email_domain_weight + zip_score * cfg.zip_weight
    let match_reasons :=
      (if name_score > 0.8 then ["Strong name match"]
       else if name_score > 0.6 then ["Moderate name match"] else []) ++
      (if address_score > 0.8 then ["Strong address match"]
       else if address_score > 0.6 then ["Moderate address match"] else []) ++
      (if phone_score > 0 then ["Phone match"] else []) ++
      (if zip_score = 1 then ["Same zip code"] else [])
    let match_type : MatchType :=
      if confidence ≥ cfg.auto_match_threshold then .probabilistic
      else if confidence ≥ cfg.review_threshold then .manual_review
      else .no_match
    { record_a := a, record_b := b, match_type := match_type,
      confidence := confidence, feature_scores := feature_scores,
      match_reasons := match_reasons }

/-! ## Lookup indices and `find_matches` -/

/-- The resolver's two mutable indices, passed around explicitly. -/
structure ResolverIndices : Type where
  email_index : PyDict (List SourceRecord)
  phone_index : PyDict (List SourceRecord)

/-- Append a record to a bucket of an index, creating the bucket first if
the key is new (the `if key not in index: index[key] = []` idiom). -/
def bucketAppend (idx : PyDict (List SourceRecord)) (k : String)
    (r : SourceRecord) : PyDict (List SourceRecord) :=
  idx.set k (((idx.get? k).getD []) ++ [r])

/-- `IdentityResolver.build_indices`: records with a truthy non-generic
email go in the email index; records with a truthy 10+-character phone go
in the phone index. -/
def build_indices (cfg : MatchConfig) (records : List SourceRecord) :
    ResolverIndices :=
  records.foldl
    (fun idx r =>
      let idx :=
        if pyTruthyS r.email && !(is_generic_email cfg (r.email.getD "")) then
          { idx with email_index := bucketAppend idx.email_index (r.email.getD "") r }
        else idx
      if pyTruthyS r.phone && decide (10 ≤ pyLen (r.phone.getD "")) then
        { idx with phone_index := bucketAppend idx.phone_index (r.phone.getD "") r }
      else idx)
    { email_index := [], phone_index := [] }

/-- State threaded through `find_matches`: the accumulated results and the
`compared` set of record keys (a Python `set`, modelled as a list used
only through membership). -/
abbrev FMState : Type := List MatchResult × List String

/-- The email-index scan of `find_matches`: compare against every bucket
member with a different key, keep non-`no_match` results, and mark the
member as compared. -/
def fmEmailScan (cfg : MatchConfig) (r : SourceRecord) :
    List SourceRecord → FMState → FMState
  | [], st => st
  | c :: cs, (ms, cp) =>
    if !(c.record_key == r.record_key) then
      let result := compare_records cfg r c
      let ms' := if result.match_type ≠ .no_match then ms ++ [result] else ms
      fmEmailScan cfg r cs (ms', cp ++ [c.record_key])
    else fmEmailScan cfg r cs (ms, cp)

/-- The phone-index scan: additionally skips members already compared. -/
def fmPhoneScan (cfg : MatchConfig) (r : SourceRecord) :
    List SourceRecord → FMState → FMState
  | [], st => st
  | c :: cs, (ms, cp) =>
    if !(c.record_key == r.record_key) && !(cp.contains c.record_key) then
      let result := compare_records cfg r c
      let ms' := if result.match_type ≠ .no_match then ms ++ [result] else ms
      fmPhoneScan cfg r cs (ms', cp ++ [c.record_key])
    else fmPhoneScan cfg r cs (ms, cp)

/-- The candidate scan: skips the record itself and already-compared keys,
and does not extend the `compared` set. -/
def fmCandScan (cfg : MatchConfig) (r : SourceRecord) (cp : List String) :
    List SourceRecord → List MatchResult → List MatchResult
  | [], ms => ms
  | c :: cs, ms =>
    if !(c.record_key == r.record_key) && !(cp.contains c.record_key) then
      let result := compare_records cfg r c
      let ms' := if result.match_type ≠ .no_match then ms ++ [result] else ms
      fmCandScan cfg r cp cs ms'
    else fmCandScan cfg r cp cs ms

/-- `IdentityResolver.find_matches`: email bucket, then phone bucket, then
(when a truthy candidate list is supplied) the candidate scan; the result
is stably sorted by descending confidence (Python's `list.sort` with
`reverse=True` is a stable sort; a stable sort by a fixed key is unique as
a function, so the structural `insertionSort` below computes it). -/
def find_matches (cfg : MatchConfig) (idx : ResolverIndices)
    (record : SourceRecord) (candidates : Option (List SourceRecord)) :
    List MatchResult :=
  let st0 : FMState := ([], [])
  let st1 :=
    if pyTruthyS record.email then
      match idx.email_index.get? (record.email.getD "") with
      | some bucket => fmEmailScan cfg record bucket st0
      | none => st0
    else st0
  let st2 :=
    if pyTruthyS record.phone then
      match idx.phone_index.get? (record.phone.getD "") with
      | some bucket => fmPhoneScan cfg record bucket st1
      | none => st1
    else st1
  let ms :=
    match candidates with
    | some cs => if cs ≠ [] then fmCandScan cfg record st2.2 cs st2.1 else st2.1
    | none => st2.1
  List.insertionSort (fun m1 m2 => m2.confidence ≤ m1.confidence) ms

/-! ## ConflictResolver -/

/-- Python's stable `list.sort(key=..., reverse=True)` on records by their
`updated_at` timestamp: descending, ties keeping original order (stable
sorts by a fixed key agree as functions, so `insertionSort` computes it;
the `getD` default is irrelevant because every call site first filters out
records without a timestamp). -/
def sortByUpdatedDesc (rs : List SourceRecord) : List SourceRecord :=
  List.insertionSort (fun r1 r2 => r2.updated_at.getD 0 ≤ r1.updated_at.getD 0) rs

/-- `ConflictResolver.resolve_email`.  Note the hardcoded three-element
generic list in the fallback, taken verbatim from the source (it is not
the configured `generic_emails` set). -/
def resolve_email (cfg : MatchConfig) (records : List SourceRecord) :
    Option String :=
  let emails := records.filterMap
    (fun r => if pyTruthyS r.email then r.email else none)
  if emails = [] then none
  else
    let fallback :=
      let non_generic := emails.filter (fun e =>
        !(["info@", "admin@", "support@"].any (fun g =>
          pyStartsWith (pyLower e) g)))
      if non_generic ≠ [] then non_generic.head? else emails.head?
    if cfg.prefer_most_recent then
      let records_with_email := records.filter (fun r => pyTruthyS r.email)
      let records_with_timestamp :=
        records_with_email.filter (fun r => r.updated_at.isSome)
      match sortByUpdatedDesc records_with_timestamp with
      | r :: _ => r.email
      | [] => fallback
    else fallback

/-- Python `max(xs, key=len)`: the first string of maximal length. -/
def pyMaxByLen (xs : List String) : Option String :=
  xs.foldl
    (fun acc s => match acc with
      | none => some s
      | some m => if s.length > m.length then some s else acc)
    none

/-- `ConflictResolver.resolve_name`: collect first/last name candidates
(from the direct fields, or from a full-name split when no truthy first
name is present) and pick the longest of each. -/
def resolve_name (records : List SourceRecord) :
    Option String × Option String :=
  let step := fun (acc : List String × List String) (r : SourceRecord) =>
    let firsts := if pyTruthyS r.first_name then acc.1 ++ [r.first_name.getD ""] else acc.1
    let lasts := if pyTruthyS r.last_name then acc.2 ++ [r.last_name.getD ""] else acc.2
    if pyTruthyS r.full_name && !(pyTruthyS r.first_name) then
      let parts := pySplit (pyStrip (r.full_name.getD ""))
      if 2 ≤ parts.length then
        (firsts ++ [parts.headD ""], lasts ++ [parts.getLastD ""])
      else (firsts, lasts)
    else (firsts, lasts)
  let collected := records.foldl step ([], [])
  (pyMaxByLen collected.1, pyMaxByLen collected.2)

/-- `ConflictResolver.resolve_phone`.  The initial eligibility filter
requires a 10+-character phone, but the most-recent branch only requires a
truthy phone, verbatim from the source. -/
def resolve_phone (cfg : MatchConfig) (records : List SourceRecord) :
    Option String :=
  let phones := records.filterMap (fun r =>
    if pyTruthyS r.phone && decide (10 ≤ pyLen (r.phone.getD "")) then r.phone
    else none)
  if phones = [] then none
  else
    if cfg.prefer_most_recent then
      let records_with_phone := records.filter (fun r => pyTruthyS r.phone)
      let records_with_timestamp :=
        records_with_phone.filter (fun r => r.updated_at.isSome)
      match sortByUpdatedDesc records_with_timestamp with
      | r :: _ => r.phone
      | [] => phones.head?
    else phones.head?

/-- `ConflictResolver.resolve_address`: address, city, state and zip are
taken together from one record. -/
def resolve_address (cfg : MatchConfig) (records : List SourceRecord) :
    Option String × Option String × Option String × Option String :=
  let records_with_address := records.filter (fun r => pyTruthyS r.address_line1)
  match records_with_address with
  | [] => (none, none, none, none)
  | r0 :: _ =>
    if cfg.prefer_most_recent then
      let records_with_timestamp :=
        records_with_address.filter (fun r => r.updated_at.isSome)
      match sortByUpdatedDesc records_with_timestamp with
      | r :: _ => (r.address_line1, r.city, r.state, r.zip_code)
      | [] => (r0.address_line1, r0.city, r0.state, r0.zip_code)
    else (r0.address_line1, r0.city, r0.state, r0.zip_code)

/-! ## ConstituentUnifier -/

/-- `_generate_constituent_id` draws 12 hex digits from `uuid4`; the
randomness is modelled by a per-run counter (claims never inspect id
values, only that each cluster yields one constituent). -/
def generate_constituent_id (n : ℕ) : String := "UC-" ++ toString n

/-- `ConstituentUnifier._create_unified_constituent`. -/
def create_unified_constituent (cfg : MatchConfig) (n : ℕ)
    (records : List SourceRecord) (match_results : List MatchResult) :
    UnifiedConstituent :=
  let canonical_email := resolve_email cfg records
  let names := resolve_name records
  let canonical_phone := resolve_phone cfg records
  let addr := resolve_address cfg records
  { constituent_id := generate_constituent_id n
    canonical_email := canonical_email
    canonical_first_name := names.1
    canonical_last_name := names.2
    canonical_phone := canonical_phone
    canonical_address_line1 := addr.1
    canonical_city := addr.2.1
    canonical_state := addr.2.2.1
    canonical_zip := addr.2.2.2
    source_records := records
    match_history := match_results }

/-- The union-find `find` with path compression, taken from the nested
functions of `unify_records`.  The Python recursion terminates on every
acyclic parent map; `fuel` (instantiated with the map size at call sites)
bounds the recursion so the Lean function is total. -/
def ufFind (parent : PyDict String) (x : String) :
    ℕ → PyDict String × String
  | 0 => (parent, x)
  | fuel + 1 =>
    match parent.get? x with
    | none => (parent, x)
    | some px =>
      if px = x then (parent, x)
      else
        let res := ufFind parent px fuel
        (res.1.set x res.2, res.2)

/-- The union-find `union`: link the root of `x` under the root of `y`. -/
def ufUnion (parent : PyDict String) (x y : String) : PyDict String :=
  let fx := ufFind parent x parent.size
  let fy := ufFind fx.1 y fx.1.size
  if fx.2 ≠ fy.2 then fy.1.set fx.2 fy.2 else fy.1

/-- The unordered record-key pair used to deduplicate match results:
`tuple(sorted([key_a, key_b]))`. -/
def matchPairKey (m : MatchResult) : String × String :=
  let ka := m.record_a.record_key
  let kb := m.record_b.record_key
  if ka ≤ kb then (ka, kb) else (kb, ka)

/-- The match-result deduplication loop of phase 3. -/
def dedupMatches (ms : List MatchResult) : List MatchResult :=
  (ms.foldl
    (fun (acc : List (String × String) × List MatchResult) m =>
      let pair := matchPairKey m
      if acc.1.contains pair then acc
      else (acc.1 ++ [pair], acc.2 ++ [m]))
    ([], [])).2

/-- The Python local `record_lookup = {r.record_key: r for r in records}`
of `unify_records` (a later record silently shadows an earlier one with
the same key). -/
def record_lookup_dict (records : List SourceRecord) : PyDict SourceRecord :=
  records.foldl (fun d r => d.set r.record_key r) []

/-- Phase 1 of `unify_records`: `all_matches[record.record_key] = matches`
for every record with a non-empty match list. -/
def all_matches_dict (cfg : MatchConfig) (idx : ResolverIndices)
    (records : List SourceRecord) (enable_probabilistic : Bool) :
    PyDict (List MatchResult) :=
  records.foldl
    (fun d r =>
      let candidates := if enable_probabilistic then some records else none
      let ms := find_matches cfg idx r candidates
      if ms ≠ [] then d.set r.record_key ms else d)
    []

/-- The initial union-find parent map
`parent = {r.record_key: r.record_key for r in records}`. -/
def parent_init (records : List SourceRecord) : PyDict String :=
  records.foldl (fun d r => d.set r.record_key r.record_key) []

/-- Phase 2 of `unify_records`: union the two records of every match
whose kind is deterministic-email, deterministic-phone or probabilistic
(manual review explicitly excluded). -/
def apply_unions (all_matches : PyDict (List MatchResult))
    (parent0 : PyDict String) : PyDict String :=
  all_matches.entries.foldl
    (fun p entry =>
      entry.2.foldl
        (fun p m =>
          if m.match_type = .deterministic_email ∨
              m.match_type = .deterministic_phone ∨
              m.match_type = .probabilistic then
            ufUnion p m.record_a.record_key m.record_b.record_key
          else p)
        p)
    parent0

/-- One step of the cluster-building loop
`for record_key in parent: clusters[find(record_key)].append(record_key)`,
threading the parent map mutated by path compression. -/
def cluster_step (st : PyDict String × PyDict (List String)) (k : String) :
    PyDict String × PyDict (List String) :=
  let fr := ufFind st.1 k st.1.size
  (fr.1, st.2.set fr.2 (((st.2.get? fr.2).getD []) ++ [k]))

/-- The clusters dict: record keys grouped by their union-find root, in
key insertion order. -/
def build_clusters (parent1 : PyDict String) : PyDict (List String) :=
  (parent1.keys.foldl cluster_step (parent1, [])).2

/-- Phase 3 of `unify_records`: one constituent per cluster, gathering and
deduplicating the match results touching any member. -/
def build_constituents (cfg : MatchConfig)
    (record_lookup : PyDict SourceRecord)
    (all_matches : PyDict (List MatchResult))
    (clusters : PyDict (List String)) : List UnifiedConstituent :=
  clusters.entries.foldl
    (fun (acc : List UnifiedConstituent) entry =>
      let cluster_records := entry.2.filterMap (fun k => record_lookup.get? k)
      let cluster_matches :=
        entry.2.foldl (fun ms k => ms ++ ((all_matches.get? k).getD [])) []
      let unique_matches := dedupMatches cluster_matches
      acc ++ [create_unified_constituent cfg acc.length cluster_records
        unique_matches])
    []

/-- `ConstituentUnifier.unify_records`: build indices, find matches for
every record, cluster with union-find (unioning only deterministic and
probabilistic kinds), and turn each cluster into a constituent. -/
def unify_records (cfg : MatchConfig) (records : List SourceRecord)
    (enable_probabilistic : Bool) : List UnifiedConstituent :=
  let idx := build_indices cfg records
  let record_lookup := record_lookup_dict records
  let all_matches := all_matches_dict cfg idx records enable_probabilistic
  let parent0 := parent_init records
  let parent1 := apply_unions all_matches parent0
  let clusters := build_clusters parent1
  build_constituents cfg record_lookup all_matches clusters


/-! ## Lemma library: `PyDict` -/

namespace PyDict

variable {β : Type}

theorem get?_nil (k : String) : get? (β := β) [] k = none := rfl

theorem get?_cons (a : String × β) (d : List (String × β)) (k : String) :
    get? (β := β) (a :: d) k = if a.1 = k then some a.2 else get? (β := β) d k := by
  by_cases h : a.1 = k <;> simp [get?, entries, h]

theorem contains_iff {d : PyDict β} {k : String} :
    contains d k = true ↔ k ∈ keys d := by
  simp only [contains, keys, entries, List.any_eq_true, List.mem_map]
  constructor
  · rintro ⟨p, hp, hpk⟩
    exact ⟨p, hp, by simpa using hpk⟩
  · rintro ⟨p, hp, hpk⟩
    exact ⟨p, hp, by simpa using hpk⟩

theorem get?_eq_none_of_not_mem {d : PyDict β} {k : String}
    (h : k ∉ keys d) : get? d k = none := by
  have : (entries d).find? (fun p => p.1 == k) = none := by
    rw [List.find?_eq_none]
    intro p hp hpk
    exact h (by
      simp only [keys, entries, List.mem_map]
      exact ⟨p, hp, by simpa using hpk⟩)
  simp [get?, this]

theorem isSome_get?_of_mem {d : PyDict β} {k : String}
    (h : k ∈ keys d) : (get? d k).isSome = true := by
  simp only [keys, entries, List.mem_map] at h
  rcases h with ⟨p, hp, rfl⟩
  have hs : ((entries d).find? (fun q => q.1 == p.1)).isSome = true := by
    rw [List.find?_isSome]
    exact ⟨p, hp, by simp⟩
  simp only [get?]
  rcases hf : (entries d).find? (fun q => q.1 == p.1) with _ | q
  · rw [hf] at hs; exact Bool.noConfusion hs
  · rw [hf]; rfl

theorem set_of_not_mem {d : PyDict β} {k : String} (h : k ∉ keys d)
    (v : β) : set d k v = entries d ++ [(k, v)] := by
  have hc : contains d k = false := by
    rcases hb : contains d k with _ | _
    · rfl
    · exact absurd (contains_iff.mp hb) h
  simp [set, hc]

/-- `find?` for a key other than the updated one is unchanged by the
in-place update map. -/
theorem find?_setMap_ne (d : List (String × β)) (k k' : String) (v : β)
    (h : k' ≠ k) :
    (d.map (fun p => if p.1 == k then (k, v) else p)).find?
        (fun p => p.1 == k') =
      d.find? (fun p => p.1 == k') := by
  induction d with
  | nil => rfl
  | cons a t ih =>
    simp only [List.map_cons]
    by_cases hak : a.1 = k
    · have h2 : ((k : String) == k') = false := by simpa using (Ne.symm h)
      have h3 : (a.1 == k') = false := by simpa [hak] using (Ne.symm h)
      rw [if_pos (by simpa using hak)]
      rw [List.find?_cons_of_neg _ (by simp [h2]),
        List.find?_cons_of_neg _ (by simp [h3])]
      exact ih
    · rw [if_neg (by simpa using hak)]
      by_cases hak' : a.1 = k'
      · rw [List.find?_cons_of_pos _ (by simpa using hak'),
          List.find?_cons_of_pos _ (by simpa using hak')]
      · rw [List.find?_cons_of_neg _ (by simpa using hak'),
          List.find?_cons_of_neg _ (by simpa using hak')]
        exact ih

/-- `find?` at the updated key returns the updated pair whenever any pair
with that key is present. -/
theorem find?_setMap_self (d : List (String × β)) (k : String) (v : β) :
    (d.map (fun p => if p.1 == k then (k, v) else p)).find?
        (fun p => p.1 == k) =
      (d.find? (fun p => p.1 == k)).map (fun _ => ((k : String), v)) := by
  induction d with
  | nil => rfl
  | cons a t ih =>
    simp only [List.map_cons]
    by_cases hak : a.1 = k
    · rw [if_pos (by simpa using hak)]
      rw [List.find?_cons_of_pos _ (by simp),
        List.find?_cons_of_pos _ (by simpa using hak)]
      rfl
    · rw [if_neg (by simpa using hak)]
      rw [List.find?_cons_of_neg _ (by simpa using hak),
        List.find?_cons_of_neg _ (by simpa using hak)]
      exact ih

theorem get?_set_self (d : PyDict β) (k : String) (v : β) :
    get? (set d k v) k = some v := by
  by_cases hc : contains d k = true
  · have hs : ((entries d).find? (fun p => p.1 == k)).isSome = true := by
      rw [List.find?_isSome]
      simpa [contains, entries, List.any_eq_true] using hc
    simp only [set, hc, if_true, get?, entries, find?_setMap_self]
    simp only [entries] at hs
    rcases hf : List.find? (fun p => p.1 == k) d with _ | q
    · rw [hf] at hs; exact Bool.noConfusion hs
    · rw [hf]; rfl
  · have hcf : contains d k = false := by simpa using hc
    simp only [set, hcf, Bool.false_eq_true, if_false]
    have hnone : List.find? (fun p => p.1 == k) (entries d) = none := by
      rw [List.find?_eq_none]
      intro p hp hpk
      have hct : contains d k = true := by
        simp only [contains, entries, List.any_eq_true]
        exact ⟨p, hp, hpk⟩
      rw [hct] at hcf; exact Bool.noConfusion hcf
    simp only [get?, entries] at hnone ⊢
    rw [List.find?_append, hnone, Option.none_or,
      List.find?_cons_of_pos _ (by simp)]
    rfl

theorem get?_set_ne (d : PyDict β) {k k' : String} (h : k' ≠ k) (v : β) :
    get? (set d k v) k' = get? d k' := by
  by_cases hc : contains d k = true
  · simp only [set, hc, if_true, get?, entries, find?_setMap_ne _ _ _ _ h]
  · have hcf : contains d k = false := by simpa using hc
    have h2 : ((k : String) == k') = false := by simpa using (Ne.symm h)
    simp only [set, hcf, Bool.false_eq_true, if_false, get?, entries,
      List.find?_append]
    rw [List.find?_cons_of_neg _ (by simp [h2]),
      show (List.find? (fun p => p.1 == k') ([] : List (String × β))) =
        none from rfl, Option.or_none]

theorem keys_set_of_mem {d : PyDict β} {k : String} (h : k ∈ keys d)
    (v : β) : keys (set d k v) = keys d := by
  have hc : contains d k = true := contains_iff.mpr h
  simp only [set, hc, if_true, keys, entries, List.map_map]
  apply List.map_congr_left
  intro a _
  by_cases hak : a.1 = k <;> simp [hak, Function.comp]

theorem keys_set_of_not_mem {d : PyDict β} {k : String} (h : k ∉ keys d)
    (v : β) : keys (set d k v) = keys d ++ [k] := by
  rw [set_of_not_mem h]
  simp [keys, entries]

theorem mem_entries_set {d : PyDict β} {k : String} {v : β}
    {p : String × β} (h : p ∈ entries (set d k v)) :
    p = (k, v) ∨ p ∈ entries d := by
  by_cases hc : contains d k = true
  · simp only [set, hc, if_true, entries] at h
    rcases List.mem_map.mp h with ⟨a, ha, rfl⟩
    by_cases hak : a.1 = k
    · simp [hak]
    · have hbk : (a.1 == k) = false := by simpa using hak
      simp only [hbk, Bool.false_eq_true, if_false]
      exact Or.inr ha
  · have hcf : contains d k = false := by simpa using hc
    simp only [set, hcf, Bool.false_eq_true, if_false, entries] at h
    rcases List.mem_append.mp h with h | h
    · exact Or.inr h
    · exact Or.inl (by simpa using h)

theorem keys_nodup_set {d : PyDict β} (hnd : (keys d).Nodup) (k : String)
    (v : β) : (keys (set d k v)).Nodup := by
  by_cases hm : k ∈ keys d
  · rw [keys_set_of_mem hm]; exact hnd
  · rw [keys_set_of_not_mem hm]
    simpa [List.nodup_append] using ⟨hnd, fun h => hm h⟩

theorem size_set_of_mem {d : PyDict β} {k : String} (h : k ∈ keys d)
    (v : β) : size (set d k v) = size d := by
  have hc : contains d k = true := contains_iff.mpr h
  simp [set, hc, size, entries]

end PyDict

/-! ## Small helper lemmas -/

theorem pyTruthyS_iff (o : Option String) :
    pyTruthyS o = true ↔ o.getD "" ≠ "" := by
  cases o with
  | none => simp [pyTruthyS]
  | some s => simp [pyTruthyS]

theorem String.mk_data (s : String) : String.mk s.data = s := by
  cases s; rfl

/-- The digit list of `_normalize_phone` after the leading-`1` reduction. -/
def phoneDigitsReduced (s : String) : List Char :=
  let digits := s.data.filter Char.isDigit
  if digits.length = 11 ∧ digits.head? = some '1' then digits.tail else digits

theorem normalize_phone_eq (s : String) :
    SourceRecord.normalize_phone s =
      if (phoneDigitsReduced s).length = 10 then String.mk (phoneDigitsReduced s)
      else s := rfl

/-! ## Claim C4 -/

/-- C4: for any two records whose emails are both present (truthy), equal,
and such that the shared email does not start with any configured generic
prefix, `compare_records` returns kind `deterministic_email` with
confidence exactly 1, regardless of all other fields of either record. -/
theorem C4_email_rule_deterministic (cfg : MatchConfig) (a b : SourceRecord)
    (ha : pyTruthyS a.email = true) (hb : pyTruthyS b.email = true)
    (heq : a.email.getD "" = b.email.getD "")
    (hng : ∀ g ∈ cfg.generic_emails,
      pyStartsWith (pyLower (a.email.getD "")) g = false) :
    (compare_records cfg a b).match_type = MatchType.deterministic_email ∧
      (compare_records cfg a b).confidence = 1 := by
  have hne : a.email.getD "" ≠ "" := (pyTruthyS_iff a.email).mp ha
  have hgen : is_generic_email cfg (a.email.getD "") = false := by
    simp only [is_generic_email]
    rw [if_neg (by simpa using hne)]
    rw [List.any_eq_false]
    intro g hg
    simp [hng g hg]
  have hgenb : is_generic_email cfg (b.email.getD "") = false := heq ▸ hgen
  simp [compare_records, ha, hb, heq, hgen, hgenb]

/-- A concrete record constructed (and hence normalized) as in the Python
`SourceRecord.__init__`/`__post_init__` pair, used by witnesses. -/
def c4recA : SourceRecord :=
  SourceRecord.postInit { source_system := "wbez"
                          source_id := "D-001"
                          email := some "John.Smith@Gmail.com"
                          first_name := some "John" }

/-- Second concrete record for the C4 witness. -/
def c4recB : SourceRecord :=
  SourceRecord.postInit { source_system := "events"
                          source_id := "E-9"
                          email := some "john.smith@gmail.com"
                          last_name := some "Smith"
                          zip_code := some "60601" }

/-- Witness for C4 at a concrete pair of constructed records sharing the
e-mail `john.smith@gmail.com` under the default policy. -/
theorem C4_email_rule_deterministic_witness :
    (compare_records defaultMatchConfig c4recA c4recB).match_type =
      MatchType.deterministic_email ∧
    (compare_records defaultMatchConfig c4recA c4recB).confidence = 1 :=
  C4_email_rule_deterministic _ _ _ (by decide) (by decide) (by decide)
    (by decide)

/-! ## Claim C9 -/

/-- C9: phone normalization is the identity on strings of exactly 10
digits; on `"1"` followed by 10 digits it returns exactly those 10 digits;
and whenever the digit content does not reduce to exactly 10 digits the
original string is returned unchanged. -/
theorem C9_phone_normalization :
    (∀ s : String, s.data.length = 10 → (∀ c ∈ s.data, c.isDigit = true) →
      SourceRecord.normalize_phone s = s) ∧
    (∀ d : String, d.data.length = 10 → (∀ c ∈ d.data, c.isDigit = true) →
      SourceRecord.normalize_phone ("1" ++ d) = d) ∧
    (∀ s : String, (phoneDigitsReduced s).length ≠ 10 →
      SourceRecord.normalize_phone s = s) := by
  refine ⟨?_, ?_, ?_⟩
  · intro s hlen hdig
    have hf : s.data.filter Char.isDigit = s.data := List.filter_eq_self.mpr hdig
    have hred : phoneDigitsReduced s = s.data := by
      simp only [phoneDigitsReduced, hf]
      rw [if_neg]
      rintro ⟨h11, _⟩
      rw [hlen] at h11
      exact absurd h11 (by decide)
    rw [normalize_phone_eq, hred, if_pos hlen, String.mk_data]
  · intro d hlen hdig
    have hdata : ("1" ++ d).data = '1' :: d.data := by
      simp [String.data_append]
    have hf : ("1" ++ d).data.filter Char.isDigit = '1' :: d.data := by
      rw [hdata]
      simp only [List.filter_cons]
      rw [if_pos (by decide)]
      rw [List.filter_eq_self.mpr hdig]
    have hred : phoneDigitsReduced ("1" ++ d) = d.data := by
      simp only [phoneDigitsReduced, hf]
      rw [if_pos (by simp [hlen])]
      rfl
    rw [normalize_phone_eq, hred, if_pos hlen, String.mk_data]
  · intro s hne
    rw [normalize_phone_eq, if_neg hne]

/-- Witness for C9: a 10-digit phone is unchanged, the 11-digit form with
a leading 1 is reduced, and a 7-character dashed string is untouched. -/
theorem C9_phone_normalization_witness :
    SourceRecord.normalize_phone "5551234567" = "5551234567" ∧
    SourceRecord.normalize_phone ("1" ++ "5551234567") = "5551234567" ∧
    SourceRecord.normalize_phone "55-1234" = "55-1234" :=
  ⟨C9_phone_normalization.1 _ (by decide) (by decide),
   C9_phone_normalization.2.1 _ (by decide) (by decide),
   C9_phone_normalization.2.2 _ (by decide)⟩


/-! ## Claim C5 -/

/-- Evaluation of the fallback similarity in its non-degenerate branch. -/
theorem jaro_eval (s1 s2 : String) (h1 : s1 ≠ s2) (h2 : s1 ≠ "")
    (h3 : s2 ≠ "")
    (h4 : ((pyLower s1).data.filter
      (fun c => (pyLower s2).data.contains c)).dedup ≠ []) :
    jaro_winkler_similarity s1 s2 =
      ((pyLower s1).data.countP (fun c =>
        (((pyLower s1).data.filter
          (fun c => (pyLower s2).data.contains c)).dedup).contains c) : ℚ) /
      (max (pyLower s1).data.length (pyLower s2).data.length : ℚ) := by
  simp only [jaro_winkler_similarity]
  rw [if_neg h1, if_neg (by simp [h2, h3]), if_neg h4]

theorem jaro_aa_ab : jaro_winkler_similarity "aa" "ab" = 1 := by
  rw [jaro_eval "aa" "ab" (by decide) (by decide) (by decide) (by decide)]
  rw [show (pyLower "aa").data.countP (fun c =>
      ((((pyLower "aa").data.filter
        (fun c => (pyLower "ab").data.contains c)).dedup).contains c)) = 2
    from by decide]
  rw [show (pyLower "aa").data.length = 2 from by decide,
    show (pyLower "ab").data.length = 2 from by decide]
  simp [max_self]

theorem jaro_ab_aa : jaro_winkler_similarity "ab" "aa" = 1/2 := by
  rw [jaro_eval "ab" "aa" (by decide) (by decide) (by decide) (by decide)]
  rw [show (pyLower "ab").data.countP (fun c =>
      ((((pyLower "ab").data.filter
        (fun c => (pyLower "aa").data.contains c)).dedup).contains c)) = 1
    from by decide]
  rw [show (pyLower "ab").data.length = 2 from by decide,
    show (pyLower "aa").data.length = 2 from by decide]
  simp [max_self]

/-- C5 counterexample: the fallback similarity is not symmetric
(`sim "aa" "ab" = 1` but `sim "ab" "aa" = 1/2`), returns 1.0 for the
distinct pair `"aa"`/`"ab"`, and returns 1.0 (not 0.0) on two empty
strings — refuting the claimed symmetry, the claim that 1.0 occurs only on
identical strings, and the claim that an empty side always yields 0.0. -/
theorem C5_similarity_counterexample :
    jaro_winkler_similarity "aa" "ab" = 1 ∧
    jaro_winkler_similarity "ab" "aa" = 1/2 ∧
    ("aa" : String) ≠ "ab" ∧
    jaro_winkler_similarity "" "" = 1 := by
  refine ⟨jaro_aa_ab, jaro_ab_aa, by decide, by simp [jaro_winkler_similarity]⟩

/-- C5 amended: the fallback similarity is bounded in `[0, 1]` and returns
1.0 on identical strings; a comparison against the empty string yields 1.0
when both sides are empty and 0.0 otherwise; but the function is not
symmetric and 1.0 is not restricted to identical strings. -/
theorem C5_similarity_amended :
    (∀ s : String, jaro_winkler_similarity s s = 1) ∧
    (∀ s1 s2 : String, 0 ≤ jaro_winkler_similarity s1 s2 ∧
      jaro_winkler_similarity s1 s2 ≤ 1) ∧
    (∀ s2 : String, jaro_winkler_similarity "" s2 =
      if "" = s2 then 1 else 0) ∧
    (∀ s1 : String, jaro_winkler_similarity s1 "" =
      if s1 = "" then 1 else 0) ∧
    ¬(∀ s1 s2 : String,
      jaro_winkler_similarity s1 s2 = jaro_winkler_similarity s2 s1) ∧
    ¬(∀ s1 s2 : String, jaro_winkler_similarity s1 s2 = 1 → s1 = s2) := by
  refine ⟨?_, ?_, ?_, ?_, ?_, ?_⟩
  · intro s
    simp [jaro_winkler_similarity]
  · intro s1 s2
    by_cases h1 : s1 = s2
    · simp [jaro_winkler_similarity, h1]
    · by_cases h2 : s1 = "" ∨ s2 = ""
      · constructor
        · simp only [jaro_winkler_similarity]
          rw [if_neg h1, if_pos h2]
        · simp only [jaro_winkler_similarity]
          rw [if_neg h1, if_pos h2]
          norm_num
      · push_neg at h2
        by_cases h3 : ((pyLower s1).data.filter
            (fun c => (pyLower s2).data.contains c)).dedup = []
        · constructor
          · simp only [jaro_winkler_similarity]
            rw [if_neg h1, if_neg (by simp [h2.1, h2.2]), if_pos h3]
          · simp only [jaro_winkler_similarity]
            rw [if_neg h1, if_neg (by simp [h2.1, h2.2]), if_pos h3]
            norm_num
        · rw [jaro_eval s1 s2 h1 h2.1 h2.2 h3]
          have hlen : 0 < (pyLower s1).data.length := by
            rw [show (pyLower s1).data = s1.data.map Char.toLower from rfl]
            rw [List.length_map]
            rcases hs : s1.data with _ | _
            · exact absurd (by cases s1 with
                | mk d => simpa [String.ext_iff] using hs) h2.1
            · simp
          have hM : (0 : ℚ) <
              (max (pyLower s1).data.length (pyLower s2).data.length : ℚ) := by
            have h5 : 0 < max (pyLower s1).data.length (pyLower s2).data.length :=
              lt_of_lt_of_le hlen (le_max_left _ _)
            exact_mod_cast h5
          have hcount : ((pyLower s1).data.countP (fun c =>
              (((pyLower s1).data.filter (fun c =>
                (pyLower s2).data.contains c)).dedup).contains c) : ℚ) ≤
              (max (pyLower s1).data.length (pyLower s2).data.length : ℚ) := by
            have h4 : ((pyLower s1).data.countP (fun c =>
                (((pyLower s1).data.filter (fun c =>
                  (pyLower s2).data.contains c)).dedup).contains c)) ≤
                (pyLower s1).data.length :=
              List.countP_le_length _
            have h5 := le_max_left (pyLower s1).data.length
              (pyLower s2).data.length
            exact_mod_cast le_trans h4 h5
          exact ⟨div_nonneg (by positivity) (le_of_lt hM),
            (div_le_one hM).mpr hcount⟩
  · intro s2
    by_cases h : ("" : String) = s2
    · simp [jaro_winkler_similarity, ← h]
    · simp only [jaro_winkler_similarity]
      rw [if_neg h]
      simp [h]
  · intro s1
    by_cases h : s1 = ""
    · simp [jaro_winkler_similarity, h]
    · simp only [jaro_winkler_similarity]
      rw [if_neg h]
      simp [h]
  · intro hsym
    have h1 := jaro_aa_ab
    rw [hsym "aa" "ab", jaro_ab_aa] at h1
    exact absurd h1 (by norm_num)
  · intro hid
    exact absurd (hid _ _ jaro_aa_ab) (by decide)

/-! ## Claims C6 and C7 -/

theorem pyTruthyS_ne_none {o : Option String} (h : pyTruthyS o = true) :
    o ≠ none := by
  cases o with
  | none => simp [pyTruthyS] at h
  | some s => simp

/-- Under a cluster with no timestamps, the timestamp filter used by the
conflict resolver is empty. -/
theorem timestamp_filter_nil (records : List SourceRecord)
    (p : SourceRecord → Bool) (h : ∀ r ∈ records, r.updated_at = none) :
    (records.filter p).filter (fun r => r.updated_at.isSome) = [] := by
  apply List.filter_eq_nil_iff.mpr
  intro r hr
  have : r ∈ records := (List.mem_filter.mp hr).1
  simp [h r this]

/-- C6 amended: with no timestamps in the cluster, `resolve_email`
prefers an email that does not start with one of the three hardcoded
prefixes `info@`, `admin@`, `support@` (not the configured
`generic_emails` set, which the function never consults), and falls back
to the first present email only when every email starts with one of those
three. -/
theorem C6_resolve_email_amended (cfg : MatchConfig)
    (records : List SourceRecord) :
    ((∀ r ∈ records, r.updated_at = none) →
      resolve_email cfg records =
        (if ((records.filterMap
              (fun r => if pyTruthyS r.email then r.email else none)).filter
            (fun e => !(["info@", "admin@", "support@"].any
              (fun g => pyStartsWith (pyLower e) g)))) ≠ [] then
          ((records.filterMap
              (fun r => if pyTruthyS r.email then r.email else none)).filter
            (fun e => !(["info@", "admin@", "support@"].any
              (fun g => pyStartsWith (pyLower e) g)))).head?
        else (records.filterMap
          (fun r => if pyTruthyS r.email then r.email else none)).head?)) ∧
    (∀ ge : List String,
      resolve_email { cfg with generic_emails := ge } records =
        resolve_email cfg records) := by
  constructor
  · intro h
    simp only [resolve_email]
    by_cases he : records.filterMap
        (fun r => if pyTruthyS r.email then r.email else none) = []
    · rw [if_pos he, he]
      simp [List.filter_nil]
    · rw [if_neg he]
      have hts : (records.filter (fun r => pyTruthyS r.email)).filter
          (fun r => r.updated_at.isSome) = [] := timestamp_filter_nil _ _ h
      by_cases hp : cfg.prefer_most_recent
      · rw [if_pos hp, hts]
        rfl
      · rw [if_neg hp]
  · intro ge
    rfl

/-- A record whose only e-mail is the configured-generic `noreply@x.com`. -/
def c6rec1 : SourceRecord :=
  SourceRecord.postInit { source_system := "s1"
                          source_id := "1"
                          email := some "noreply@x.com" }

/-- A record carrying the non-generic e-mail `bob@x.com`. -/
def c6rec2 : SourceRecord :=
  SourceRecord.postInit { source_system := "s2"
                          source_id := "2"
                          email := some "bob@x.com" }

/-- C6 counterexample: with no timestamps, although `bob@x.com` (which
starts with no configured generic prefix) is available, `resolve_email`
returns `noreply@x.com`, whose prefix `noreply@` is in the configured
generic set — because the fallback consults only the hardcoded prefixes
`info@`, `admin@`, `support@`. -/
theorem C6_resolve_email_counterexample :
    resolve_email defaultMatchConfig [c6rec1, c6rec2] = some "noreply@x.com" ∧
    "noreply@" ∈ defaultMatchConfig.generic_emails ∧
    pyStartsWith (pyLower "noreply@x.com") "noreply@" = true ∧
    c6rec2.email = some "bob@x.com" ∧
    (∀ g ∈ defaultMatchConfig.generic_emails,
      pyStartsWith (pyLower "bob@x.com") g = false) ∧
    (∀ r ∈ [c6rec1, c6rec2], r.updated_at = none) :=
  of_decide_eq_true (by with_unfolding_all rfl)

/-- Witness for C6 (amended): the no-timestamp equation applied at the
counterexample cluster computes the hardcoded-prefix fallback value. -/
theorem C6_resolve_email_amended_witness :
    resolve_email defaultMatchConfig [c6rec1, c6rec2] =
      some "noreply@x.com" := by
  have h := (C6_resolve_email_amended defaultMatchConfig [c6rec1, c6rec2]).1
    (of_decide_eq_true (by with_unfolding_all rfl))
  rw [h]
  exact of_decide_eq_true (by with_unfolding_all rfl)

/-- C7 amended: `resolve_phone` returns a value iff some record carries a
truthy 10+-character phone; with no timestamps it returns the first such
eligible phone; but the most-recent branch selects among all
phone-bearing records regardless of length, so the returned phone may be
shorter than 10 characters (see the counterexample). -/
theorem C7_resolve_phone_amended (cfg : MatchConfig)
    (records : List SourceRecord) :
    ((∀ r ∈ records, r.updated_at = none) →
      resolve_phone cfg records =
        (records.filterMap (fun r =>
          if pyTruthyS r.phone && decide (10 ≤ pyLen (r.phone.getD ""))
          then r.phone else none)).head?) ∧
    (resolve_phone cfg records = none ↔
      records.filterMap (fun r =>
        if pyTruthyS r.phone && decide (10 ≤ pyLen (r.phone.getD ""))
        then r.phone else none) = []) := by
  constructor
  · intro h
    simp only [resolve_phone]
    by_cases he : records.filterMap (fun r =>
        if pyTruthyS r.phone && decide (10 ≤ pyLen (r.phone.getD ""))
        then r.phone else none) = []
    · rw [if_pos he, he]
      rfl
    · rw [if_neg he]
      have hts : (records.filter (fun r => pyTruthyS r.phone)).filter
          (fun r => r.updated_at.isSome) = [] := timestamp_filter_nil _ _ h
      by_cases hp : cfg.prefer_most_recent
      · rw [if_pos hp, hts]
        rfl
      · rw [if_neg hp]
  · constructor
    · intro hnone
      by_contra he
      simp only [resolve_phone] at hnone
      rw [if_neg he] at hnone
      by_cases hp : cfg.prefer_most_recent
      · rw [if_pos hp] at hnone
        rcases hs : sortByUpdatedDesc ((records.filter
            (fun r => pyTruthyS r.phone)).filter
            (fun r => r.updated_at.isSome)) with _ | ⟨r, rest⟩
        · rw [hs] at hnone
          exact he (List.head?_eq_none_iff.mp hnone)
        · rw [hs] at hnone
          have hr : r ∈ sortByUpdatedDesc ((records.filter
              (fun r => pyTruthyS r.phone)).filter
              (fun r => r.updated_at.isSome)) := by
            rw [hs]; exact List.mem_cons_self r rest
          have hr2 : r ∈ (records.filter
              (fun r => pyTruthyS r.phone)).filter
              (fun r => r.updated_at.isSome) :=
            (List.perm_insertionSort _ _).mem_iff.mp hr
          have hr3 : pyTruthyS r.phone = true :=
            (List.mem_filter.mp (List.mem_filter.mp hr2).1).2
          exact pyTruthyS_ne_none hr3 hnone
      · rw [if_neg hp] at hnone
        exact he (List.head?_eq_none_iff.mp hnone)
    · intro he
      simp only [resolve_phone]
      rw [if_pos he]

/-- A record with the short phone `12345` and the later timestamp. -/
def c7rec1 : SourceRecord :=
  SourceRecord.postInit { source_system := "s1"
                          source_id := "1"
                          phone := some "12345"
                          updated_at := some 2 }

/-- A record with an eligible 10-digit phone and the earlier timestamp. -/
def c7rec2 : SourceRecord :=
  SourceRecord.postInit { source_system := "s2"
                          source_id := "2"
                          phone := some "1234567890"
                          updated_at := some 1 }

/-- A single timestamp-free record with an eligible phone, for the C7
witness. -/
def c7rec3 : SourceRecord :=
  SourceRecord.postInit { source_system := "s3"
                          source_id := "3"
                          phone := some "1234567890" }

/-- C7 counterexample: with an eligible 10-digit phone present on an
older record, the most-recent branch returns the 5-character phone
`12345` of the newest record — refuting the claim that `resolve_phone`
only ever returns phones of at least 10 characters. -/
theorem C7_resolve_phone_counterexample :
    resolve_phone defaultMatchConfig [c7rec1, c7rec2] = some "12345" ∧
    pyLen "12345" < 10 ∧
    pyTruthyS c7rec2.phone = true ∧ 10 ≤ pyLen (c7rec2.phone.getD "") :=
  of_decide_eq_true (by with_unfolding_all rfl)

/-- Witness for C7 (amended): both conjuncts applied at a concrete
timestamp-free cluster with one eligible phone. -/
theorem C7_resolve_phone_amended_witness :
    resolve_phone defaultMatchConfig [c7rec3] = some "1234567890" ∧
    ¬(resolve_phone defaultMatchConfig [c7rec3] = none) := by
  have h1 := (C7_resolve_phone_amended defaultMatchConfig [c7rec3]).1
    (of_decide_eq_true (by with_unfolding_all rfl))
  have h2 := (C7_resolve_phone_amended defaultMatchConfig [c7rec3]).2
  constructor
  · rw [h1]
    exact of_decide_eq_true (by with_unfolding_all rfl)
  · intro hn
    have := h2.mp hn
    exact absurd this (of_decide_eq_true (by with_unfolding_all rfl))

/-! ## Claim C8 -/

/-- First record of the colliding pair: key `wbez:D-1`. -/
def c8rec1 : SourceRecord :=
  SourceRecord.postInit { source_system := "wbez"
                          source_id := "D-1"
                          email := some "a@x.com" }

/-- Second, distinct record with the same key `wbez:D-1`. -/
def c8rec2 : SourceRecord :=
  SourceRecord.postInit { source_system := "wbez"
                          source_id := "D-1"
                          email := some "b@y.com" }

/-- C8: evaluation of `unify_records` at the failing input — two distinct
records sharing the record key `wbez:D-1`.  The call does not fail: it
returns normally with a single constituent containing only the second
record (the `record_lookup` dict comprehension silently keeps the last
record per key), so the first record is silently dropped rather than the
collision being reported. -/
theorem C8_duplicate_key_behavior :
    c8rec1 ≠ c8rec2 ∧
    c8rec1.record_key = c8rec2.record_key ∧
    (unify_records defaultMatchConfig [c8rec1, c8rec2] true).map
      (fun c => c.source_records) = [[c8rec2]] :=
  of_decide_eq_true (by with_unfolding_all rfl)

/-! ## Claim C10 -/

/-- Both deterministic and probabilistic branches of the comparator store
the compared records unchanged. -/
theorem compare_records_record_ab (cfg : MatchConfig) (a b : SourceRecord) :
    (compare_records cfg a b).record_a = a ∧
      (compare_records cfg a b).record_b = b := by
  simp only [compare_records]
  split_ifs <;> exact ⟨rfl, rfl⟩

/-- Elimination principle for the email-bucket scan: every result is
either inherited from the incoming state or a non-`no_match` comparison
against a bucket member with a different record key. -/
theorem fmEmailScan_mem (cfg : MatchConfig) (r : SourceRecord) :
    ∀ (cs : List SourceRecord) (st : FMState) (m : MatchResult),
      m ∈ (fmEmailScan cfg r cs st).1 →
      m ∈ st.1 ∨ ∃ c ∈ cs, (c.record_key == r.record_key) = false ∧
        m = compare_records cfg r c ∧ m.match_type ≠ .no_match := by
  intro cs
  induction cs with
  | nil => intro st m hm; exact Or.inl hm
  | cons c cs ih =>
    intro st m hm
    rcases st with ⟨ms, cp⟩
    simp only [fmEmailScan] at hm
    by_cases hk : (c.record_key == r.record_key) = false
    · rw [if_pos (by simp [hk])] at hm
      rcases ih _ m hm with hmem | ⟨c', hc', hk', hm', hmt⟩
      · by_cases hmt : (compare_records cfg r c).match_type ≠ .no_match
        · rw [if_pos hmt] at hmem
          rcases List.mem_append.mp hmem with hmem | hmem
          · exact Or.inl hmem
          · refine Or.inr ⟨c, List.mem_cons_self c cs, hk, ?_, ?_⟩
            · simpa using hmem
            · have : m = compare_records cfg r c := by simpa using hmem
              rw [this]; exact hmt
        · rw [if_neg hmt] at hmem
          exact Or.inl hmem
      · exact Or.inr ⟨c', List.mem_cons_of_mem c hc', hk', hm', hmt⟩
    · rw [if_neg (by simpa using hk)] at hm
      rcases ih _ m hm with hmem | ⟨c', hc', hk', hm', hmt⟩
      · exact Or.inl hmem
      · exact Or.inr ⟨c', List.mem_cons_of_mem c hc', hk', hm', hmt⟩

/-- Elimination principle for the phone-bucket scan. -/
theorem fmPhoneScan_mem (cfg : MatchConfig) (r : SourceRecord) :
    ∀ (cs : List SourceRecord) (st : FMState) (m : MatchResult),
      m ∈ (fmPhoneScan cfg r cs st).1 →
      m ∈ st.1 ∨ ∃ c ∈ cs, (c.record_key == r.record_key) = false ∧
        m = compare_records cfg r c ∧ m.match_type ≠ .no_match := by
  intro cs
  induction cs with
  | nil => intro st m hm; exact Or.inl hm
  | cons c cs ih =>
    intro st m hm
    rcases st with ⟨ms, cp⟩
    simp only [fmPhoneScan] at hm
    by_cases hg : (!(c.record_key == r.record_key) &&
        !(cp.contains c.record_key)) = true
    · rw [if_pos hg] at hm
      have hk : (c.record_key == r.record_key) = false := by
        rcases Bool.and_eq_true_iff.mp hg with ⟨h1, _⟩
        simpa using h1
      rcases ih _ m hm with hmem | ⟨c', hc', hk', hm', hmt⟩
      · by_cases hmt : (compare_records cfg r c).match_type ≠ .no_match
        · rw [if_pos hmt] at hmem
          rcases List.mem_append.mp hmem with hmem | hmem
          · exact Or.inl hmem
          · refine Or.inr ⟨c, List.mem_cons_self c cs, hk, ?_, ?_⟩
            · simpa using hmem
            · have : m = compare_records cfg r c := by simpa using hmem
              rw [this]; exact hmt
        · rw [if_neg hmt] at hmem
          exact Or.inl hmem
      · exact Or.inr ⟨c', List.mem_cons_of_mem c hc', hk', hm', hmt⟩
    · rw [if_neg (by simpa using hg)] at hm
      rcases ih _ m hm with hmem | ⟨c', hc', hk', hm', hmt⟩
      · exact Or.inl hmem
      · exact Or.inr ⟨c', List.mem_cons_of_mem c hc', hk', hm', hmt⟩

/-- Elimination principle for the candidate scan. -/
theorem fmCandScan_mem (cfg : MatchConfig) (r : SourceRecord)
    (cp : List String) :
    ∀ (cs : List SourceRecord) (ms : List MatchResult) (m : MatchResult),
      m ∈ fmCandScan cfg r cp cs ms →
      m ∈ ms ∨ ∃ c ∈ cs, (c.record_key == r.record_key) = false ∧
        m = compare_records cfg r c ∧ m.match_type ≠ .no_match := by
  intro cs
  induction cs with
  | nil => intro ms m hm; exact Or.inl hm
  | cons c cs ih =>
    intro ms m hm
    simp only [fmCandScan] at hm
    by_cases hg : (!(c.record_key == r.record_key) &&
        !(cp.contains c.record_key)) = true
    · rw [if_pos hg] at hm
      have hk : (c.record_key == r.record_key) = false := by
        rcases Bool.and_eq_true_iff.mp hg with ⟨h1, _⟩
        simpa using h1
      rcases ih _ m hm with hmem | ⟨c', hc', hk', hm', hmt⟩
      · by_cases hmt : (compare_records cfg r c).match_type ≠ .no_match
        · rw [if_pos hmt] at hmem
          rcases List.mem_append.mp hmem with hmem | hmem
          · exact Or.inl hmem
          · refine Or.inr ⟨c, List.mem_cons_self c cs, hk, ?_, ?_⟩
            · simpa using hmem
            · have : m = compare_records cfg r c := by simpa using hmem
              rw [this]; exact hmt
        · rw [if_neg hmt] at hmem
          exact Or.inl hmem
      · exact Or.inr ⟨c', List.mem_cons_of_mem c hc', hk', hm', hmt⟩
    · rw [if_neg (by simpa using hg)] at hm
      rcases ih _ m hm with hmem | ⟨c', hc', hk', hm', hmt⟩
      · exact Or.inl hmem
      · exact Or.inr ⟨c', List.mem_cons_of_mem c hc', hk', hm', hmt⟩

/-- Elimination principle for `find_matches`: every returned result is a
non-`no_match` comparison of the probe record against some record with a
different key drawn from one of its index buckets or the candidate list. -/
theorem find_matches_mem (cfg : MatchConfig) (idx : ResolverIndices)
    (record : SourceRecord) (candidates : Option (List SourceRecord))
    (m : MatchResult) (hm : m ∈ find_matches cfg idx record candidates) :
    ∃ c, (c.record_key == record.record_key) = false ∧
      m = compare_records cfg record c ∧ m.match_type ≠ .no_match ∧
      (c ∈ ((idx.email_index.get? (record.email.getD "")).getD []) ∨
       c ∈ ((idx.phone_index.get? (record.phone.getD "")).getD []) ∨
       (∃ cs, candidates = some cs ∧ c ∈ cs)) := by
  simp only [find_matches] at hm
  have hm2 := (List.perm_insertionSort _ _).mem_iff.mp hm
  set st0 : FMState := ([], []) with hst0
  set st1 := (if pyTruthyS record.email then
      match idx.email_index.get? (record.email.getD "") with
      | some bucket => fmEmailScan cfg record bucket st0
      | none => st0
    else st0) with hst1
  set st2 := (if pyTruthyS record.phone then
      match idx.phone_index.get? (record.phone.getD "") with
      | some bucket => fmPhoneScan cfg record bucket st1
      | none => st1
    else st1) with hst2
  have hElim1 : ∀ m' ∈ st1.1,
      ∃ c, (c.record_key == record.record_key) = false ∧
        m' = compare_records cfg record c ∧ m'.match_type ≠ .no_match ∧
        c ∈ ((idx.email_index.get? (record.email.getD "")).getD []) := by
    intro m' hm'
    rw [hst1] at hm'
    by_cases hte : pyTruthyS record.email = true
    · rw [if_pos hte] at hm'
      rcases hb : idx.email_index.get? (record.email.getD "") with _ | bucket
      · rw [hb] at hm'
        simp [hst0] at hm'
      · rw [hb] at hm'
        rcases fmEmailScan_mem cfg record bucket st0 m' hm' with h0 | hres
        · simp [hst0] at h0
        · rcases hres with ⟨c, hc, hk, hmeq, hmt⟩
          exact ⟨c, hk, hmeq, hmt, by simp [hb, hc]⟩
    · rw [if_neg hte] at hm'
      simp [hst0] at hm'
  have hElim2 : ∀ m' ∈ st2.1,
      ∃ c, (c.record_key == record.record_key) = false ∧
        m' = compare_records cfg record c ∧ m'.match_type ≠ .no_match ∧
        (c ∈ ((idx.email_index.get? (record.email.getD "")).getD []) ∨
         c ∈ ((idx.phone_index.get? (record.phone.getD "")).getD [])) := by
    intro m' hm'
    rw [hst2] at hm'
    by_cases htp : pyTruthyS record.phone = true
    · rw [if_pos htp] at hm'
      rcases hb : idx.phone_index.get? (record.phone.getD "") with _ | bucket
      · rw [hb] at hm'
        rcases hElim1 m' hm' with ⟨c, hk, hmeq, hmt, hc⟩
        exact ⟨c, hk, hmeq, hmt, Or.inl hc⟩
      · rw [hb] at hm'
        rcases fmPhoneScan_mem cfg record bucket st1 m' hm' with h1 | hres
        · rcases hElim1 m' h1 with ⟨c, hk, hmeq, hmt, hc⟩
          exact ⟨c, hk, hmeq, hmt, Or.inl hc⟩
        · rcases hres with ⟨c, hc, hk, hmeq, hmt⟩
          exact ⟨c, hk, hmeq, hmt, Or.inr (by simp [hb, hc])⟩
    · rw [if_neg htp] at hm'
      rcases hElim1 m' hm' with ⟨c, hk, hmeq, hmt, hc⟩
      exact ⟨c, hk, hmeq, hmt, Or.inl hc⟩
  rcases candidates with _ | cs
  · rcases hElim2 m hm2 with ⟨c, hk, hmeq, hmt, hc⟩
    exact ⟨c, hk, hmeq, hmt, by tauto⟩
  · have hm3 : m ∈ (if cs ≠ [] then fmCandScan cfg record st2.2 cs st2.1
        else st2.1) := hm2
    by_cases hcs : cs ≠ []
    · rw [if_pos hcs] at hm3
      rcases fmCandScan_mem cfg record st2.2 cs st2.1 m hm3 with h2 | hres
      · rcases hElim2 m h2 with ⟨c, hk, hmeq, hmt, hc⟩
        exact ⟨c, hk, hmeq, hmt, by tauto⟩
      · rcases hres with ⟨c, hc, hk, hmeq, hmt⟩
        exact ⟨c, hk, hmeq, hmt, Or.inr (Or.inr ⟨cs, rfl, hc⟩)⟩
    · rw [if_neg hcs] at hm3
      rcases hElim2 m hm3 with ⟨c, hk, hmeq, hmt, hc⟩
      exact ⟨c, hk, hmeq, hmt, by tauto⟩

/-- C10: `find_matches` never pairs a record with itself — every returned
result compares the probe record (as `record_a`) against a record with a
different record key, and no returned result has kind `no_match`, for any
index state and any candidate list. -/
theorem C10_find_matches_never_self (cfg : MatchConfig)
    (idx : ResolverIndices) (record : SourceRecord)
    (candidates : Option (List SourceRecord)) (m : MatchResult)
    (hm : m ∈ find_matches cfg idx record candidates) :
    m.record_a = record ∧
    m.record_a.record_key ≠ m.record_b.record_key ∧
    m.match_type ≠ MatchType.no_match := by
  rcases find_matches_mem cfg idx record candidates m hm with
    ⟨c, hk, hmeq, hmt, _⟩
  have ha : m.record_a = record := by
    rw [hmeq]; exact (compare_records_record_ab cfg record c).1
  have hb : m.record_b = c := by
    rw [hmeq]; exact (compare_records_record_ab cfg record c).2
  refine ⟨ha, ?_, hmt⟩
  rw [ha, hb]
  intro hcontra
  rw [← hcontra] at hk
  simp at hk

/-- Records sharing the e-mail `w@x.com`, for the C10 witness. -/
def c10rec1 : SourceRecord :=
  SourceRecord.postInit { source_system := "s1"
                          source_id := "1"
                          email := some "w@x.com" }

/-- Second record of the C10 witness pair. -/
def c10rec2 : SourceRecord :=
  SourceRecord.postInit { source_system := "s2"
                          source_id := "2"
                          email := some "w@x.com" }

/-- Witness for C10: with indices built over the pair (so the probe sits
in its own email bucket) and the probe itself in the candidate list, the
returned deterministic match pairs two distinct keys and is not
`no_match`. -/
theorem C10_find_matches_never_self_witness :
    (compare_records defaultMatchConfig c10rec1 c10rec2).record_a =
      c10rec1 ∧
    (compare_records defaultMatchConfig c10rec1 c10rec2).record_a.record_key ≠
      (compare_records defaultMatchConfig c10rec1 c10rec2).record_b.record_key ∧
    (compare_records defaultMatchConfig c10rec1 c10rec2).match_type ≠
      MatchType.no_match :=
  C10_find_matches_never_self defaultMatchConfig
    (build_indices defaultMatchConfig [c10rec1, c10rec2]) c10rec1
    (some [c10rec1, c10rec2]) _
    (of_decide_eq_true (by with_unfolding_all rfl))


/-! ## Characterization of the lookup indices -/

/-- Membership predicate of the email-index bucket keyed by `e`. -/
def emailBucketPred (cfg : MatchConfig) (e : String) (r : SourceRecord) :
    Bool :=
  (pyTruthyS r.email && !(is_generic_email cfg (r.email.getD ""))) &&
    (r.email.getD "" == e)

/-- Membership predicate of the phone-index bucket keyed by `p`. -/
def phoneBucketPred (p : String) (r : SourceRecord) : Bool :=
  (pyTruthyS r.phone && decide (10 ≤ pyLen (r.phone.getD ""))) &&
    (r.phone.getD "" == p)

/-- The email index maps `e` to exactly the input records qualifying for
its bucket, in input order; the key is absent when no record qualifies. -/
theorem build_indices_email_get (cfg : MatchConfig)
    (records : List SourceRecord) (e : String) :
    PyDict.get? (build_indices cfg records).email_index e =
      (if records.filter (emailBucketPred cfg e) = [] then none
       else some (records.filter (emailBucketPred cfg e))) := by
  induction records using List.reverseRecOn with
  | nil => simp [build_indices, PyDict.get?_nil]
  | append_singleton rs r ih =>
    have hstep : build_indices cfg (rs ++ [r]) =
        (let idx := build_indices cfg rs
         let idx :=
           if pyTruthyS r.email && !(is_generic_email cfg (r.email.getD ""))
           then { idx with
             email_index := bucketAppend idx.email_index (r.email.getD "") r }
           else idx
         if pyTruthyS r.phone && decide (10 ≤ pyLen (r.phone.getD "")) then
           { idx with
             phone_index := bucketAppend idx.phone_index (r.phone.getD "") r }
         else idx) := by
      simp only [build_indices, List.foldl_append, List.foldl_cons,
        List.foldl_nil]
    rw [hstep, List.filter_append]
    by_cases hEc : (pyTruthyS r.email &&
        !(is_generic_email cfg (r.email.getD ""))) = true
    · by_cases hPc : (pyTruthyS r.phone &&
          decide (10 ≤ pyLen (r.phone.getD ""))) = true
      all_goals
        simp only [hEc, hPc, if_true, if_false, Bool.false_eq_true]
        by_cases hee : r.email.getD "" = e
        · have hpr : emailBucketPred cfg e r = true := by
            simp only [emailBucketPred, hEc, Bool.true_and]
            simpa using hee
          simp only [List.filter_cons, List.filter_nil, hpr, if_true,
            bucketAppend]
          rw [hee, PyDict.get?_set_self, ih]
          by_cases hnil : rs.filter (emailBucketPred cfg e) = []
          · rw [if_pos hnil, hnil]
            simp
          · rw [if_neg hnil]
            simp [hnil]
        · have hpr : emailBucketPred cfg e r = false := by
            simp only [emailBucketPred]
            simp [hee]
          simp only [List.filter_cons, List.filter_nil, hpr,
            Bool.false_eq_true, if_false, List.append_nil, bucketAppend]
          rw [PyDict.get?_set_ne _ (fun hc => hee hc.symm)]
          exact ih
    · have hEcf : (pyTruthyS r.email &&
          !(is_generic_email cfg (r.email.getD ""))) = false := by
        simpa using hEc
      by_cases hPc : (pyTruthyS r.phone &&
          decide (10 ≤ pyLen (r.phone.getD ""))) = true
      all_goals
        simp only [hEcf, hPc, if_true, if_false, Bool.false_eq_true]
        have hpr : emailBucketPred cfg e r = false := by
          simp only [emailBucketPred, hEcf, Bool.false_and]
        simp only [List.filter_cons, List.filter_nil, hpr,
          Bool.false_eq_true, if_false, List.append_nil]
        exact ih

/-- The phone index maps `p` to exactly the input records qualifying for
its bucket, in input order; the key is absent when no record qualifies. -/
theorem build_indices_phone_get (cfg : MatchConfig)
    (records : List SourceRecord) (p : String) :
    PyDict.get? (build_indices cfg records).phone_index p =
      (if records.filter (phoneBucketPred p) = [] then none
       else some (records.filter (phoneBucketPred p))) := by
  induction records using List.reverseRecOn with
  | nil => simp [build_indices, PyDict.get?_nil]
  | append_singleton rs r ih =>
    have hstep : build_indices cfg (rs ++ [r]) =
        (let idx := build_indices cfg rs
         let idx :=
           if pyTruthyS r.email && !(is_generic_email cfg (r.email.getD ""))
           then { idx with
             email_index := bucketAppend idx.email_index (r.email.getD "") r }
           else idx
         if pyTruthyS r.phone && decide (10 ≤ pyLen (r.phone.getD "")) then
           { idx with
             phone_index := bucketAppend idx.phone_index (r.phone.getD "") r }
         else idx) := by
      simp only [build_indices, List.foldl_append, List.foldl_cons,
        List.foldl_nil]
    rw [hstep, List.filter_append]
    by_cases hPc : (pyTruthyS r.phone &&
        decide (10 ≤ pyLen (r.phone.getD ""))) = true
    · by_cases hEc : (pyTruthyS r.email &&
          !(is_generic_email cfg (r.email.getD ""))) = true
      all_goals
        simp only [hEc, hPc, if_true, if_false, Bool.false_eq_true]
        by_cases hpp : r.phone.getD "" = p
        · have hpr : phoneBucketPred p r = true := by
            simp only [phoneBucketPred, hPc, Bool.true_and]
            simpa using hpp
          simp only [List.filter_cons, List.filter_nil, hpr, if_true,
            bucketAppend]
          rw [hpp, PyDict.get?_set_self, ih]
          by_cases hnil : rs.filter (phoneBucketPred p) = []
          · rw [if_pos hnil, hnil]
            simp
          · rw [if_neg hnil]
            simp [hnil]
        · have hpr : phoneBucketPred p r = false := by
            simp only [phoneBucketPred]
            simp [hpp]
          simp only [List.filter_cons, List.filter_nil, hpr,
            Bool.false_eq_true, if_false, List.append_nil, bucketAppend]
          rw [PyDict.get?_set_ne _ (fun hc => hpp hc.symm)]
          exact ih
    · have hPcf : (pyTruthyS r.phone &&
          decide (10 ≤ pyLen (r.phone.getD ""))) = false := by
        simpa using hPc
      by_cases hEc : (pyTruthyS r.email &&
          !(is_generic_email cfg (r.email.getD ""))) = true
      all_goals
        simp only [hEc, hPcf, if_true, if_false, Bool.false_eq_true]
        have hpr : phoneBucketPred p r = false := by
          simp only [phoneBucketPred, hPcf, Bool.false_and]
        simp only [List.filter_cons, List.filter_nil, hpr,
          Bool.false_eq_true, if_false, List.append_nil]
        exact ih


/-! ## Exact characterization of the three `find_matches` scans -/

theorem fmEmailScan_eq (cfg : MatchConfig) (r : SourceRecord) :
    ∀ (cs : List SourceRecord) (ms : List MatchResult) (cp : List String),
      fmEmailScan cfg r cs (ms, cp) =
        (ms ++ (cs.filter (fun c => !(c.record_key == r.record_key) &&
            decide ((compare_records cfg r c).match_type ≠
              MatchType.no_match))).map (compare_records cfg r),
         cp ++ (cs.filter
            (fun c => !(c.record_key == r.record_key))).map
          (fun c => c.record_key)) := by
  intro cs
  induction cs with
  | nil => intro ms cp; simp [fmEmailScan]
  | cons c cs ih =>
    intro ms cp
    simp only [fmEmailScan]
    by_cases hk : (c.record_key == r.record_key) = false
    · have hk1 : ¬(c.record_key = r.record_key) := by simpa using hk
      rw [if_pos (by simp [hk])]
      by_cases hmt : (compare_records cfg r c).match_type = MatchType.no_match
      · rw [if_neg (by simp [hmt]), ih]
        simp [List.filter_cons, hk1, hmt]
      · rw [if_pos hmt, ih]
        simp [List.filter_cons, hk1, hmt]
    · have hk1 : c.record_key = r.record_key := by simpa using hk
      rw [if_neg (by simp [hk1]), ih]
      simp [List.filter_cons, hk1]

theorem fmPhoneScan_eq (cfg : MatchConfig) (r : SourceRecord) :
    ∀ (cs : List SourceRecord) (ms : List MatchResult) (cp : List String),
      (cs.map (fun c => c.record_key)).Nodup →
      fmPhoneScan cfg r cs (ms, cp) =
        (ms ++ (cs.filter (fun c => (!(c.record_key == r.record_key) &&
            !(cp.contains c.record_key)) &&
            decide ((compare_records cfg r c).match_type ≠
              MatchType.no_match))).map (compare_records cfg r),
         cp ++ (cs.filter (fun c => !(c.record_key == r.record_key) &&
            !(cp.contains c.record_key))).map
          (fun c => c.record_key)) := by
  intro cs
  induction cs with
  | nil => intro ms cp _; simp [fmPhoneScan]
  | cons c cs ih =>
    intro ms cp hnd
    have hnd2 : (cs.map (fun c => c.record_key)).Nodup :=
      (List.nodup_cons.mp (by simpa using hnd)).2
    have hne : ∀ c' ∈ cs, c'.record_key ≠ c.record_key := by
      intro c' hc' hcontra
      have hmem : c.record_key ∈ cs.map (fun c => c.record_key) :=
        List.mem_map.mpr ⟨c', hc', hcontra⟩
      exact (List.nodup_cons.mp (by simpa using hnd)).1 hmem
    have hcont : ∀ c' ∈ cs, (cp ++ [c.record_key]).contains c'.record_key =
        cp.contains c'.record_key := by
      intro c' hc'
      simp only [List.contains_eq_any_beq, List.any_append]
      have h1 : ([c.record_key].any (fun x => c'.record_key == x)) = false := by
        simp [hne c' hc']
      rw [h1, Bool.or_false]
    have hcongr1 : cs.filter (fun c' =>
        (!(c'.record_key == r.record_key) &&
          !((cp ++ [c.record_key]).contains c'.record_key)) &&
          decide ((compare_records cfg r c').match_type ≠
            MatchType.no_match)) =
        cs.filter (fun c' => (!(c'.record_key == r.record_key) &&
          !(cp.contains c'.record_key)) &&
          decide ((compare_records cfg r c').match_type ≠
            MatchType.no_match)) := by
      apply List.filter_congr
      intro c' hc'
      rw [hcont c' hc']
    have hcongr2 : cs.filter (fun c' =>
        !(c'.record_key == r.record_key) &&
          !((cp ++ [c.record_key]).contains c'.record_key)) =
        cs.filter (fun c' => !(c'.record_key == r.record_key) &&
          !(cp.contains c'.record_key)) := by
      apply List.filter_congr
      intro c' hc'
      rw [hcont c' hc']
    simp only [fmPhoneScan]
    by_cases hg : (!(c.record_key == r.record_key) &&
        !(cp.contains c.record_key)) = true
    · rcases Bool.and_eq_true_iff.mp hg with ⟨hgk, hgc⟩
      have hk1 : ¬(c.record_key = r.record_key) := by simpa using hgk
      have hk2 : c.record_key ∉ cp := by simpa using hgc
      rw [if_pos hg]
      by_cases hmt : (compare_records cfg r c).match_type = MatchType.no_match
      · rw [if_neg (by simp [hmt]), ih _ _ hnd2, hcongr1, hcongr2]
        simp [List.filter_cons, hk1, hk2, hmt]
      · rw [if_pos hmt, ih _ _ hnd2, hcongr1, hcongr2]
        simp [List.filter_cons, hk1, hk2, hmt]
    · have hg2 : (!(c.record_key == r.record_key) &&
          !(cp.contains c.record_key)) = false := by simpa using hg
      have hp1 : ((!(c.record_key == r.record_key) &&
          !(cp.contains c.record_key)) &&
          decide ((compare_records cfg r c).match_type ≠
            MatchType.no_match)) = false := by
        rw [hg2]; rfl
      rw [if_neg (by rw [hg2]; simp), ih _ _ hnd2]
      rw [List.filter_cons, List.filter_cons, if_neg (by rw [hp1]; simp),
        if_neg (by rw [hg2]; simp)]

theorem fmCandScan_eq (cfg : MatchConfig) (r : SourceRecord)
    (cp : List String) :
    ∀ (cs : List SourceRecord) (ms : List MatchResult),
      fmCandScan cfg r cp cs ms =
        ms ++ (cs.filter (fun c => (!(c.record_key == r.record_key) &&
            !(cp.contains c.record_key)) &&
            decide ((compare_records cfg r c).match_type ≠
              MatchType.no_match))).map (compare_records cfg r) := by
  intro cs
  induction cs with
  | nil => intro ms; simp [fmCandScan]
  | cons c cs ih =>
    intro ms
    simp only [fmCandScan]
    by_cases hg : (!(c.record_key == r.record_key) &&
        !(cp.contains c.record_key)) = true
    · rcases Bool.and_eq_true_iff.mp hg with ⟨hgk, hgc⟩
      have hk1 : ¬(c.record_key = r.record_key) := by simpa using hgk
      have hk2 : c.record_key ∉ cp := by simpa using hgc
      rw [if_pos hg]
      by_cases hmt : (compare_records cfg r c).match_type = MatchType.no_match
      · rw [if_neg (by simp [hmt]), ih]
        simp [List.filter_cons, hk1, hk2, hmt]
      · rw [if_pos hmt, ih]
        simp [List.filter_cons, hk1, hk2, hmt]
    · have hg2 : (!(c.record_key == r.record_key) &&
          !(cp.contains c.record_key)) = false := by simpa using hg
      have hp1 : ((!(c.record_key == r.record_key) &&
          !(cp.contains c.record_key)) &&
          decide ((compare_records cfg r c).match_type ≠
            MatchType.no_match)) = false := by
        rw [hg2]; rfl
      rw [if_neg (by rw [hg2]; simp), ih]
      rw [List.filter_cons, if_neg (by rw [hp1]; simp)]

/-! ## A three-way filter partition up to permutation -/

theorem filter_three_partition {α : Type} (p1 p2 p3 T : α → Bool)
    (hcov : ∀ a, T a = (p1 a || p2 a || p3 a))
    (h12 : ∀ a, p1 a = true → p2 a = false)
    (h13 : ∀ a, p1 a = true → p3 a = false)
    (h23 : ∀ a, p2 a = true → p3 a = false) :
    ∀ s : List α,
      List.Perm (s.filter p1 ++ s.filter p2 ++ s.filter p3) (s.filter T) := by
  intro s
  induction s with
  | nil => simp
  | cons a s ih =>
    by_cases h1 : p1 a = true
    · have hT : T a = true := by rw [hcov]; simp [h1]
      rw [List.filter_cons, List.filter_cons, List.filter_cons,
        List.filter_cons, if_pos h1, if_pos hT,
        if_neg (by rw [h12 a h1]; simp), if_neg (by rw [h13 a h1]; simp)]
      exact (List.Perm.cons a ih)
    · have h1f : p1 a = false := by simpa using h1
      by_cases h2 : p2 a = true
      · have hT : T a = true := by rw [hcov]; simp [h2]
        rw [List.filter_cons, List.filter_cons, List.filter_cons,
          List.filter_cons, if_pos h2, if_pos hT, if_neg (by rw [h1f]; simp),
          if_neg (by rw [h23 a h2]; simp)]
        calc s.filter p1 ++ a :: s.filter p2 ++ s.filter p3
            = s.filter p1 ++ (a :: s.filter p2 ++ s.filter p3) := by
              rw [List.append_assoc]
          _ = s.filter p1 ++ (a :: (s.filter p2 ++ s.filter p3)) := rfl
          _ = s.filter p1 ++ a :: (s.filter p2 ++ s.filter p3) := rfl
        exact (List.perm_middle.trans (List.Perm.cons a (by
          rw [← List.append_assoc]; exact ih)))
      · have h2f : p2 a = false := by simpa using h2
        by_cases h3 : p3 a = true
        · have hT : T a = true := by rw [hcov]; simp [h3]
          rw [List.filter_cons, List.filter_cons, List.filter_cons,
            List.filter_cons, if_pos h3, if_pos hT,
            if_neg (by rw [h1f]; simp), if_neg (by rw [h2f]; simp)]
          exact (List.perm_middle.trans (List.Perm.cons a ih))
        · have h3f : p3 a = false := by simpa using h3
          have hT : T a = false := by rw [hcov]; simp [h1f, h2f, h3f]
          rw [List.filter_cons, List.filter_cons, List.filter_cons,
            List.filter_cons, if_neg (by rw [h1f]; simp),
            if_neg (by rw [h2f]; simp), if_neg (by rw [h3f]; simp),
            if_neg (by rw [hT]; simp)]
          exact ih

/-- The Boolean bookkeeping of the three `find_matches` phases: with
`a` = "in the email bucket", `b` = "in the phone bucket", `k` = "different
record key" and `d` = "kind is not no-match", the three phase predicates
cover `k && d` disjointly. -/
theorem fm_phase_tautology (a b k d : Bool) :
    (k && d) = ((((k && d) && a) || (((k && !(a && k)) && d) && b)) ||
      ((k && !((a && k) || ((k && !(a && k)) && b))) && d)) ∧
    (((k && d) && a) = true → ((((k && !(a && k)) && d) && b) = false)) ∧
    (((k && d) && a) = true →
      (((k && !((a && k) || ((k && !(a && k)) && b))) && d) = false)) ∧
    (((((k && !(a && k)) && d) && b) = true) →
      (((k && !((a && k) || ((k && !(a && k)) && b))) && d) = false)) := by
  revert a b k d
  decide

/-- With pairwise-distinct keys, a key occurs among the keys of a filtered
sublist exactly when its (unique) record satisfies the filter. -/
theorem key_mem_map_filter (records : List SourceRecord)
    (hnd : (records.map (fun c => c.record_key)).Nodup)
    (q : SourceRecord → Bool) (c : SourceRecord) (hc : c ∈ records) :
    (c.record_key ∈ (records.filter q).map (fun c => c.record_key)) ↔
      q c = true := by
  constructor
  · intro hmem
    rcases List.mem_map.mp hmem with ⟨c', hc', hkey⟩
    have hc'r : c' ∈ records := (List.mem_filter.mp hc').1
    have hq : q c' = true := (List.mem_filter.mp hc').2
    have : c' = c := List.inj_on_of_nodup_map hnd hc'r hc hkey
    rw [← this]
    exact hq
  · intro hq
    exact List.mem_map.mpr ⟨c, List.mem_filter.mpr ⟨hc, hq⟩, rfl⟩


/-! ## Permutation characterization of `find_matches` over the full input -/

/-- Over indices built from a pairwise-distinctly-keyed record list, with
the same list as candidate set, `find_matches` returns (up to the final
stable sort) exactly one comparison against every other record whose
comparison is not `no_match` — each candidate is compared once, whether it
was reached through an index bucket or the candidate scan. -/
theorem find_matches_perm (cfg : MatchConfig) (records : List SourceRecord)
    (r : SourceRecord)
    (hnd : (records.map (fun c => c.record_key)).Nodup) :
    List.Perm (find_matches cfg (build_indices cfg records) r (some records))
      ((records.filter (fun c => !(c.record_key == r.record_key) &&
        decide ((compare_records cfg r c).match_type ≠
          MatchType.no_match))).map (compare_records cfg r)) := by
  rcases hrec : records with _ | ⟨r0, rest⟩
  · subst hrec
    simp only [find_matches, build_indices, List.foldl_nil]
    simp [fmEmailScan, fmPhoneScan, fmCandScan, PyDict.get?_nil]
  rw [← hrec]
  have hne : records ≠ [] := by rw [hrec]; exact List.cons_ne_nil r0 rest
  clear hrec
  set KE : SourceRecord → Bool :=
    fun c => !(c.record_key == r.record_key) with hKE
  set D : SourceRecord → Bool :=
    fun c => decide ((compare_records cfg r c).match_type ≠
      MatchType.no_match) with hD
  set A : SourceRecord → Bool :=
    fun c => pyTruthyS r.email &&
      emailBucketPred cfg (r.email.getD "") c with hA
  set B : SourceRecord → Bool :=
    fun c => pyTruthyS r.phone &&
      phoneBucketPred (r.phone.getD "") c with hB
  simp only [find_matches]
  -- Characterize the state after the email-bucket scan.
  have hst1 :
      (if pyTruthyS r.email then
        match PyDict.get? (build_indices cfg records).email_index
            (r.email.getD "") with
        | some bucket => fmEmailScan cfg r bucket ([], [])
        | none => (([], []) : FMState)
      else (([], []) : FMState)) =
      ((records.filter (fun c => (KE c && D c) && A c)).map
          (compare_records cfg r),
       (records.filter (fun c => KE c && A c)).map
          (fun c => c.record_key)) := by
    by_cases hte : pyTruthyS r.email = true
    · rw [if_pos hte, build_indices_email_get]
      by_cases hnil : records.filter
          (emailBucketPred cfg (r.email.getD "")) = []
      · rw [if_pos hnil]
        have hall : ∀ c ∈ records,
            emailBucketPred cfg (r.email.getD "") c = false := by
          intro c hc
          simpa using List.filter_eq_nil_iff.mp hnil c hc
        have hf1 : records.filter (fun c => (KE c && D c) && A c) = [] := by
          apply List.filter_eq_nil_iff.mpr
          intro c hc
          simp [hA, hall c hc]
        have hf2 : records.filter (fun c => KE c && A c) = [] := by
          apply List.filter_eq_nil_iff.mpr
          intro c hc
          simp [hA, hall c hc]
        rw [hf1, hf2]
        simp
      · rw [if_neg hnil]
        show fmEmailScan cfg r
          (records.filter (emailBucketPred cfg (r.email.getD ""))) ([], []) = _
        rw [fmEmailScan_eq, List.filter_filter, List.filter_filter]
        simp only [Prod.mk.injEq, List.nil_append]
        constructor
        · apply congrArg
          apply List.filter_congr
          intro c _
          simp only [hKE, hD, hA, hte, Bool.true_and]
        · apply congrArg
          apply List.filter_congr
          intro c _
          simp only [hKE, hA, hte, Bool.true_and]
    · have htef : pyTruthyS r.email = false := by simpa using hte
      rw [if_neg (by simp [htef])]
      have hf1 : records.filter (fun c => (KE c && D c) && A c) = [] := by
        apply List.filter_eq_nil_iff.mpr
        intro c hc
        simp [hA, htef]
      have hf2 : records.filter (fun c => KE c && A c) = [] := by
        apply List.filter_eq_nil_iff.mpr
        intro c hc
        simp [hA, htef]
      rw [hf1, hf2]
      simp
  rw [hst1]
  -- The compared-set after phase 1, expressed pointwise.
  have hcontains1 : ∀ c ∈ records,
      (((records.filter (fun c => KE c && A c)).map
        (fun c => c.record_key)).contains c.record_key) = (KE c && A c) := by
    intro c hc
    rcases hval : (KE c && A c) with _ | _
    · rcases hmem : ((records.filter (fun c => KE c && A c)).map
          (fun c => c.record_key)).contains c.record_key with _ | _
      · exact hmem
      · exfalso
        have hmm : c.record_key ∈ (records.filter (fun c => KE c && A c)).map
            (fun c => c.record_key) := by
          simpa using hmem
        have := (key_mem_map_filter records hnd _ c hc).mp hmm
        rw [hval] at this
        exact Bool.noConfusion this
    · have hmm : c.record_key ∈ (records.filter (fun c => KE c && A c)).map
          (fun c => c.record_key) :=
        (key_mem_map_filter records hnd _ c hc).mpr hval
      simpa using hmm
  -- Characterize the state after the phone-bucket scan.
  have hst2 :
      (if pyTruthyS r.phone then
        match PyDict.get? (build_indices cfg records).phone_index
            (r.phone.getD "") with
        | some bucket => fmPhoneScan cfg r bucket
            ((records.filter (fun c => (KE c && D c) && A c)).map
              (compare_records cfg r),
             (records.filter (fun c => KE c && A c)).map
              (fun c => c.record_key))
        | none =>
            ((records.filter (fun c => (KE c && D c) && A c)).map
              (compare_records cfg r),
             (records.filter (fun c => KE c && A c)).map
              (fun c => c.record_key))
      else
        ((records.filter (fun c => (KE c && D c) && A c)).map
          (compare_records cfg r),
         (records.filter (fun c => KE c && A c)).map
          (fun c => c.record_key))) =
      ((records.filter (fun c => (KE c && D c) && A c)).map
          (compare_records cfg r) ++
        (records.filter (fun c =>
          ((KE c && !(A c && KE c)) && D c) && B c)).map
          (compare_records cfg r),
       (records.filter (fun c => KE c && A c)).map
          (fun c => c.record_key) ++
        (records.filter (fun c => (KE c && !(A c && KE c)) && B c)).map
          (fun c => c.record_key)) := by
    by_cases htp : pyTruthyS r.phone = true
    · rw [if_pos htp, build_indices_phone_get]
      by_cases hnil : records.filter (phoneBucketPred (r.phone.getD "")) = []
      · rw [if_pos hnil]
        have hall : ∀ c ∈ records,
            phoneBucketPred (r.phone.getD "") c = false := by
          intro c hc
          simpa using List.filter_eq_nil_iff.mp hnil c hc
        have hf1 : records.filter (fun c =>
            ((KE c && !(A c && KE c)) && D c) && B c) = [] := by
          apply List.filter_eq_nil_iff.mpr
          intro c hc
          simp [hB, hall c hc]
        have hf2 : records.filter (fun c =>
            (KE c && !(A c && KE c)) && B c) = [] := by
          apply List.filter_eq_nil_iff.mpr
          intro c hc
          simp [hB, hall c hc]
        rw [hf1, hf2]
        simp
      · have hbnd : ((records.filter
            (phoneBucketPred (r.phone.getD ""))).map
            (fun c => c.record_key)).Nodup := by
          have hsub : List.Sublist
              ((records.filter (phoneBucketPred (r.phone.getD ""))).map
                (fun c => c.record_key))
              (records.map (fun c => c.record_key)) :=
            List.Sublist.map _ (List.filter_sublist records)
          exact hnd.sublist hsub
        rw [if_neg hnil]
        show fmPhoneScan cfg r
          (records.filter (phoneBucketPred (r.phone.getD ""))) _ = _
        rw [fmPhoneScan_eq _ _ _ _ _ hbnd, List.filter_filter,
          List.filter_filter]
        simp only [Prod.mk.injEq]
        constructor
        · apply congrArg
          apply congrArg
          apply List.filter_congr
          intro c hc
          rw [hcontains1 c hc]
          simp only [hB, htp, Bool.true_and]
          rw [Bool.and_comm (KE c) (A c)]
        · apply congrArg
          apply congrArg
          apply List.filter_congr
          intro c hc
          rw [hcontains1 c hc]
          simp only [hB, htp, Bool.true_and]
          rw [Bool.and_comm (KE c) (A c)]
    · have htpf : pyTruthyS r.phone = false := by simpa using htp
      rw [if_neg (by simp [htpf])]
      have hf1 : records.filter (fun c =>
          ((KE c && !(A c && KE c)) && D c) && B c) = [] := by
        apply List.filter_eq_nil_iff.mpr
        intro c hc
        simp [hB, htpf]
      have hf2 : records.filter (fun c =>
          (KE c && !(A c && KE c)) && B c) = [] := by
        apply List.filter_eq_nil_iff.mpr
        intro c hc
        simp [hB, htpf]
      rw [hf1, hf2]
      simp
  rw [hst2, if_pos hne, fmCandScan_eq]
  -- The compared-set after phase 2, expressed pointwise.
  have hcontains2 : ∀ c ∈ records,
      (((records.filter (fun c => KE c && A c)).map
          (fun c => c.record_key) ++
        (records.filter (fun c => (KE c && !(A c && KE c)) && B c)).map
          (fun c => c.record_key)).contains c.record_key) =
      ((A c && KE c) || ((KE c && !(A c && KE c)) && B c)) := by
    intro c hc
    have h2 : (((records.filter (fun c =>
        (KE c && !(A c && KE c)) && B c)).map
        (fun c => c.record_key)).contains c.record_key) =
        ((KE c && !(A c && KE c)) && B c) := by
      rcases hval : ((KE c && !(A c && KE c)) && B c) with _ | _
      · rcases hmem : (((records.filter (fun c =>
            (KE c && !(A c && KE c)) && B c)).map
            (fun c => c.record_key)).contains c.record_key) with _ | _
        · exact hmem
        · exfalso
          have hmm : c.record_key ∈ (records.filter (fun c =>
              (KE c && !(A c && KE c)) && B c)).map
              (fun c => c.record_key) := by
            simpa using hmem
          have := (key_mem_map_filter records hnd _ c hc).mp hmm
          rw [hval] at this
          exact Bool.noConfusion this
      · have hmm : c.record_key ∈ (records.filter (fun c =>
            (KE c && !(A c && KE c)) && B c)).map
            (fun c => c.record_key) :=
          (key_mem_map_filter records hnd _ c hc).mpr hval
        simpa using hmm
    simp only [List.contains_eq_any_beq, List.any_append]
    rw [← List.contains_eq_any_beq, ← List.contains_eq_any_beq,
      hcontains1 c hc, h2, Bool.and_comm (KE c) (A c)]
  have hq3 : records.filter (fun c =>
      (!(c.record_key == r.record_key) &&
        !(((records.filter (fun c => KE c && A c)).map
            (fun c => c.record_key) ++
          (records.filter (fun c => (KE c && !(A c && KE c)) && B c)).map
            (fun c => c.record_key)).contains c.record_key)) &&
        decide ((compare_records cfg r c).match_type ≠
          MatchType.no_match)) =
      records.filter (fun c =>
        (KE c && !((A c && KE c) || ((KE c && !(A c && KE c)) && B c))) &&
          D c) := by
    apply List.filter_congr
    intro c hc
    rw [hcontains2 c hc]
  rw [hq3]
  -- Assemble the three phases and apply the partition permutation.
  have hperm := filter_three_partition
    (fun c => (KE c && D c) && A c)
    (fun c => ((KE c && !(A c && KE c)) && D c) && B c)
    (fun c => (KE c && !((A c && KE c) || ((KE c && !(A c && KE c)) && B c)))
      && D c)
    (fun c => KE c && D c)
    (fun c => by exact (fm_phase_tautology (A c) (B c) (KE c) (D c)).1)
    (fun c => by exact (fm_phase_tautology (A c) (B c) (KE c) (D c)).2.1)
    (fun c => by exact (fm_phase_tautology (A c) (B c) (KE c) (D c)).2.2.1)
    (fun c => by exact (fm_phase_tautology (A c) (B c) (KE c) (D c)).2.2.2)
    records
  refine (List.perm_insertionSort _ _).trans ?_
  rw [← List.map_append, ← List.map_append]
  exact hperm.map (compare_records cfg r)

/-! ## Lemmas on the dictionaries built by `unify_records` -/

theorem PyDict.get?_mem {β : Type} {d : PyDict β} {k : String} {v : β}
    (h : PyDict.get? d k = some v) : (k, v) ∈ PyDict.entries d := by
  simp only [PyDict.get?] at h
  rcases hf : (PyDict.entries d).find? (fun p => p.1 == k) with _ | pr
  · rw [hf] at h; exact Option.noConfusion h
  · rw [hf] at h
    have hpr : pr.2 = v := by simpa using h
    have hmem := List.mem_of_find?_eq_some hf
    have hkey : pr.1 = k := by
      have := List.find?_some hf
      simpa using this
    have : pr = (k, v) := by
      rcases pr with ⟨a, b⟩
      simp only at hkey hpr
      rw [hkey, hpr]
    rw [← this]
    exact hmem

theorem PyDict.mem_keys_of_get? {β : Type} {d : PyDict β} {k : String}
    {v : β} (h : PyDict.get? d k = some v) : k ∈ PyDict.keys d := by
  have := PyDict.get?_mem h
  simp only [PyDict.keys]
  exact List.mem_map.mpr ⟨(k, v), this, rfl⟩

/-- Every entry of `all_matches` is the non-empty match list of one of
the input records. -/
theorem all_matches_dict_entries (cfg : MatchConfig) (idx : ResolverIndices)
    (records : List SourceRecord) (ep : Bool) :
    ∀ e ∈ PyDict.entries (all_matches_dict cfg idx records ep),
      ∃ r, r ∈ records ∧ e.1 = r.record_key ∧
        e.2 = find_matches cfg idx r
          (if ep then some records else none) ∧ e.2 ≠ [] := by
  have haux : ∀ (iter : List SourceRecord) (d : PyDict (List MatchResult)),
      (∀ r ∈ iter, r ∈ records) →
      (∀ e ∈ PyDict.entries d, ∃ r, r ∈ records ∧ e.1 = r.record_key ∧
        e.2 = find_matches cfg idx r
          (if ep then some records else none) ∧ e.2 ≠ []) →
      ∀ e ∈ PyDict.entries (iter.foldl
        (fun d r =>
          let candidates := if ep then some records else none
          let ms := find_matches cfg idx r candidates
          if ms ≠ [] then d.set r.record_key ms else d) d),
      ∃ r, r ∈ records ∧ e.1 = r.record_key ∧
        e.2 = find_matches cfg idx r
          (if ep then some records else none) ∧ e.2 ≠ [] := by
    intro iter
    induction iter with
    | nil => intro d _ hd e he; exact hd e he
    | cons r rs ih =>
      intro d hsub hd e he
      simp only [List.foldl_cons] at he
      refine ih _ (fun r' hr' => hsub r' (List.mem_cons_of_mem r hr')) ?_ e he
      intro e' he'
      by_cases hms : find_matches cfg idx r
          (if ep then some records else none) ≠ []
      · rw [if_pos hms] at he'
        rcases PyDict.mem_entries_set he' with he'' | he''
        · exact ⟨r, hsub r (List.mem_cons_self r rs), by rw [he''],
            by rw [he''], by rw [he'']; exact hms⟩
        · exact hd e' he''
      · rw [if_neg hms] at he'
        exact hd e' he'
  exact haux records [] (fun r h => h) (by intro e he; simp [PyDict.entries] at he)

theorem foldl_get_frozen_am (cfg : MatchConfig) (idx : ResolverIndices)
    (records : List SourceRecord) (ep : Bool) :
    ∀ (iter : List SourceRecord) (d : PyDict (List MatchResult)) (k : String),
      (∀ r' ∈ iter, r'.record_key ≠ k) →
      PyDict.get? (iter.foldl
        (fun d r =>
          let candidates := if ep then some records else none
          let ms := find_matches cfg idx r candidates
          if ms ≠ [] then d.set r.record_key ms else d) d) k =
      PyDict.get? d k := by
  intro iter
  induction iter with
  | nil => intro d k _; rfl
  | cons r rs ih =>
    intro d k hne
    simp only [List.foldl_cons]
    rw [ih _ _ (fun r' hr' => hne r' (List.mem_cons_of_mem r hr'))]
    by_cases hms : find_matches cfg idx r
        (if ep then some records else none) ≠ []
    · rw [if_pos hms]
      exact PyDict.get?_set_ne _ (Ne.symm (hne r (List.mem_cons_self r rs))) _
    · rw [if_neg hms]

/-- With pairwise-distinct keys, `all_matches` maps the key of a record
with a non-empty match list to exactly that list. -/
theorem all_matches_dict_get (cfg : MatchConfig) (idx : ResolverIndices)
    (records : List SourceRecord) (ep : Bool)
    (hnd : (records.map (fun r => r.record_key)).Nodup)
    (r : SourceRecord) (hr : r ∈ records)
    (hms : find_matches cfg idx r (if ep then some records else none) ≠ []) :
    PyDict.get? (all_matches_dict cfg idx records ep) r.record_key =
      some (find_matches cfg idx r (if ep then some records else none)) := by
  have haux : ∀ (iter : List SourceRecord) (d : PyDict (List MatchResult)),
      r ∈ iter → (iter.map (fun r => r.record_key)).Nodup →
      PyDict.get? (iter.foldl
        (fun d r =>
          let candidates := if ep then some records else none
          let ms := find_matches cfg idx r candidates
          if ms ≠ [] then d.set r.record_key ms else d) d) r.record_key =
      some (find_matches cfg idx r (if ep then some records else none)) := by
    intro iter
    induction iter with
    | nil => intro d hmem; exact absurd hmem (List.not_mem_nil r)
    | cons r0 rs ih =>
      intro d hmem hnd'
      rw [List.map_cons] at hnd'
      have hnd'' := List.nodup_cons.mp hnd' 
      by_cases heq : r0 = r
      · subst heq
        simp only [List.foldl_cons]
        rw [if_pos hms]
        have hfrozen : ∀ r' ∈ rs, r'.record_key ≠ r0.record_key := by
          intro r' hr' hcontra
          exact hnd''.1 (List.mem_map.mpr ⟨r', hr', hcontra⟩)
        rw [foldl_get_frozen_am cfg idx records ep rs _ _ hfrozen]
        exact PyDict.get?_set_self _ _ _
      · have hmem' : r ∈ rs := by
          rcases List.mem_cons.mp hmem with h | h
          · exact absurd h.symm heq
          · exact h
        simp only [List.foldl_cons]
        exact ih _ hmem' hnd''.2
  exact haux records [] hr hnd

theorem foldl_get_frozen_rl :
    ∀ (iter : List SourceRecord) (d : PyDict SourceRecord) (k : String),
      (∀ r' ∈ iter, r'.record_key ≠ k) →
      PyDict.get? (iter.foldl (fun d r => d.set r.record_key r) d) k =
      PyDict.get? d k := by
  intro iter
  induction iter with
  | nil => intro d k _; rfl
  | cons r rs ih =>
    intro d k hne
    simp only [List.foldl_cons]
    rw [ih _ _ (fun r' hr' => hne r' (List.mem_cons_of_mem r hr'))]
    exact PyDict.get?_set_ne _ (Ne.symm (hne r (List.mem_cons_self r rs))) _

/-- With pairwise-distinct keys, `record_lookup` maps each record's key
to that record. -/
theorem record_lookup_dict_get (records : List SourceRecord)
    (hnd : (records.map (fun r => r.record_key)).Nodup)
    (r : SourceRecord) (hr : r ∈ records) :
    PyDict.get? (record_lookup_dict records) r.record_key = some r := by
  have haux : ∀ (iter : List SourceRecord) (d : PyDict SourceRecord),
      r ∈ iter → (iter.map (fun r => r.record_key)).Nodup →
      PyDict.get? (iter.foldl (fun d r => d.set r.record_key r) d)
        r.record_key = some r := by
    intro iter
    induction iter with
    | nil => intro d hmem; exact absurd hmem (List.not_mem_nil r)
    | cons r0 rs ih =>
      intro d hmem hnd'
      rw [List.map_cons] at hnd'
      have hnd'' := List.nodup_cons.mp hnd' 
      by_cases heq : r0 = r
      · subst heq
        simp only [List.foldl_cons]
        have hfrozen : ∀ r' ∈ rs, r'.record_key ≠ r0.record_key := by
          intro r' hr' hcontra
          exact hnd''.1 (List.mem_map.mpr ⟨r', hr', hcontra⟩)
        rw [foldl_get_frozen_rl rs _ _ hfrozen]
        exact PyDict.get?_set_self _ _ _
      · have hmem' : r ∈ rs := by
          rcases List.mem_cons.mp hmem with h | h
          · exact absurd h.symm heq
          · exact h
        simp only [List.foldl_cons]
        exact ih _ hmem' hnd''.2
  exact haux records [] hr hnd

/-! ## Union-find: key-set and value-closure invariants -/

/-- The union-find invariant: the parent map has exactly the key list `K`
(in order) and every parent pointer targets a member of `K`. -/
def UFInv (K : List String) (p : PyDict String) : Prop :=
  PyDict.keys p = K ∧ ∀ pr ∈ PyDict.entries p, pr.2 ∈ K

theorem ufFind_inv {K : List String} :
    ∀ (fuel : ℕ) (p : PyDict String) (x : String), UFInv K p →
      UFInv K (ufFind p x fuel).1 ∧
        ((ufFind p x fuel).2 = x ∨ (ufFind p x fuel).2 ∈ K) := by
  intro fuel
  induction fuel with
  | zero => intro p x hinv; exact ⟨hinv, Or.inl rfl⟩
  | succ n ih =>
    intro p x hinv
    simp only [ufFind]
    split
    · exact ⟨hinv, Or.inl rfl⟩
    · rename_i px hg
      have hxK : x ∈ K := by
        rw [← hinv.1]
        exact PyDict.mem_keys_of_get? hg
      have hpxK : px ∈ K := hinv.2 (x, px) (PyDict.get?_mem hg)
      split
      · exact ⟨hinv, Or.inl rfl⟩
      · rename_i hpx
        rcases ih p px hinv with ⟨hinv', hroot⟩
        have hrootK : (ufFind p px n).2 ∈ K := by
          rcases hroot with h | h
          · rw [h]; exact hpxK
          · exact h
        constructor
        · constructor
          · rw [PyDict.keys_set_of_mem (by rw [hinv'.1]; exact hxK)]
            exact hinv'.1
          · intro pr hpr
            rcases PyDict.mem_entries_set hpr with h | h
            · rw [h]; exact hrootK
            · exact hinv'.2 pr h
        · exact Or.inr hrootK

theorem ufUnion_inv {K : List String} (p : PyDict String) (x y : String)
    (hx : x ∈ K) (hy : y ∈ K) (hinv : UFInv K p) :
    UFInv K (ufUnion p x y) := by
  simp only [ufUnion]
  rcases ufFind_inv p.size p x hinv with ⟨hinv1, hroot1⟩
  have hroot1K : (ufFind p x p.size).2 ∈ K := by
    rcases hroot1 with h | h
    · rw [h]; exact hx
    · exact h
  rcases ufFind_inv (ufFind p x p.size).1.size (ufFind p x p.size).1 y hinv1
    with ⟨hinv2, hroot2⟩
  have hroot2K :
      (ufFind (ufFind p x p.size).1 y (ufFind p x p.size).1.size).2 ∈ K := by
    rcases hroot2 with h | h
    · rw [h]; exact hy
    · exact h
  by_cases hne : (ufFind p x p.size).2 ≠
      (ufFind (ufFind p x p.size).1 y (ufFind p x p.size).1.size).2
  · rw [if_pos hne]
    constructor
    · rw [PyDict.keys_set_of_mem (by rw [hinv2.1]; exact hroot1K)]
      exact hinv2.1
    · intro pr hpr
      rcases PyDict.mem_entries_set hpr with h | h
      · rw [h]; exact hroot2K
      · exact hinv2.2 pr h
  · rw [if_neg hne]
    exact hinv2

/-- With pairwise-distinct keys, the initial parent map is the list of
self-loops, one per record, in input order. -/
theorem parent_init_spec (records : List SourceRecord)
    (hnd : (records.map (fun r => r.record_key)).Nodup) :
    PyDict.entries (parent_init records) =
      records.map (fun r => (r.record_key, r.record_key)) := by
  induction records using List.reverseRecOn with
  | nil => rfl
  | append_singleton rs r ih =>
    have hnd' : (rs.map (fun r => r.record_key)).Nodup := by
      rw [List.map_append] at hnd
      exact (List.nodup_append.mp hnd).1
    have hnotin : r.record_key ∉ rs.map (fun r => r.record_key) := by
      rw [List.map_append] at hnd
      intro hmem
      rcases List.nodup_append.mp hnd with ⟨_, _, hdisj⟩
      exact hdisj hmem (by simp)
    have hstep : parent_init (rs ++ [r]) =
        (parent_init rs).set r.record_key r.record_key := by
      simp only [parent_init, List.foldl_append, List.foldl_cons,
        List.foldl_nil]
    have hkeys : PyDict.keys (parent_init rs) =
        rs.map (fun r => r.record_key) := by
      simp only [PyDict.keys, ih hnd', List.map_map]
      rfl
    have hnot : r.record_key ∉ PyDict.keys (parent_init rs) := by
      rw [hkeys]; exact hnotin
    rw [hstep, PyDict.set_of_not_mem hnot, ih hnd', List.map_append]
    rfl

theorem parent_init_inv (records : List SourceRecord)
    (hnd : (records.map (fun r => r.record_key)).Nodup) :
    UFInv (records.map (fun r => r.record_key)) (parent_init records) := by
  constructor
  · rw [PyDict.keys, parent_init_spec records hnd, List.map_map]
    rfl
  · intro pr hpr
    rw [parent_init_spec records hnd] at hpr
    rcases List.mem_map.mp hpr with ⟨r, hr, rfl⟩
    exact List.mem_map.mpr ⟨r, hr, rfl⟩

/-- `apply_unions` preserves the union-find invariant whenever every
match inside `all_matches` pairs two keys of `K`. -/
theorem apply_unions_inv {K : List String}
    (am : PyDict (List MatchResult)) (p0 : PyDict String)
    (hinv : UFInv K p0)
    (hcl : ∀ e ∈ PyDict.entries am, ∀ m ∈ e.2,
      m.record_a.record_key ∈ K ∧ m.record_b.record_key ∈ K) :
    UFInv K (apply_unions am p0) := by
  have hinner : ∀ (ms : List MatchResult) (p : PyDict String),
      UFInv K p →
      (∀ m ∈ ms, m.record_a.record_key ∈ K ∧ m.record_b.record_key ∈ K) →
      UFInv K (ms.foldl
        (fun p m =>
          if m.match_type = .deterministic_email ∨
              m.match_type = .deterministic_phone ∨
              m.match_type = .probabilistic then
            ufUnion p m.record_a.record_key m.record_b.record_key
          else p) p) := by
    intro ms
    induction ms with
    | nil => intro p hp _; exact hp
    | cons m ms ih =>
      intro p hp hms
      simp only [List.foldl_cons]
      apply ih
      · by_cases helig : m.match_type = MatchType.deterministic_email ∨
            m.match_type = MatchType.deterministic_phone ∨
            m.match_type = MatchType.probabilistic
        · rw [if_pos helig]
          exact ufUnion_inv p _ _ (hms m (List.mem_cons_self m ms)).1
            (hms m (List.mem_cons_self m ms)).2 hp
        · rw [if_neg helig]
          exact hp
      · intro m' hm'
        exact hms m' (List.mem_cons_of_mem m hm')
  have houter : ∀ (es : List (String × List MatchResult)) (p : PyDict String),
      UFInv K p →
      (∀ e ∈ es, ∀ m ∈ e.2,
        m.record_a.record_key ∈ K ∧ m.record_b.record_key ∈ K) →
      UFInv K (es.foldl
        (fun p entry =>
          entry.2.foldl
            (fun p m =>
              if m.match_type = .deterministic_email ∨
                  m.match_type = .deterministic_phone ∨
                  m.match_type = .probabilistic then
                ufUnion p m.record_a.record_key m.record_b.record_key
              else p) p) p) := by
    intro es
    induction es with
    | nil => intro p hp _; exact hp
    | cons e es ih =>
      intro p hp hes
      simp only [List.foldl_cons]
      apply ih
      · exact hinner e.2 p hp (hes e (List.mem_cons_self e es))
      · intro e' he'
        exact hes e' (List.mem_cons_of_mem e he')
  exact houter (PyDict.entries am) p0 hinv hcl

/-! ## The cluster phase as a permutation of the parent keys -/

theorem perm_of_eq {α : Type} {l1 l2 : List α} (h : l1 = l2) :
    List.Perm l1 l2 := h ▸ List.Perm.refl l1

/-- Bumping one bucket of a dict with distinct keys by one element adds
exactly that element to the multiset of all bucket members. -/
theorem flatten_setMap_aux (r k : String) :
    ∀ (l : List (String × List String)) (old : List String),
      (l.map (fun p => p.1)).Nodup →
      PyDict.get? l r = some old →
      List.Perm
        (((l.map (fun p => if p.1 == r then (r, old ++ [k]) else p)).map
          (fun p => p.2)).flatten)
        (((l.map (fun p => p.2)).flatten) ++ [k]) := by
  intro l
  induction l with
  | nil =>
    intro old _ hg
    rw [PyDict.get?_nil] at hg
    exact Option.noConfusion hg
  | cons a t ih =>
    intro old hnd hg
    rw [List.map_cons] at hnd
    have hnd2 := List.nodup_cons.mp hnd
    rw [PyDict.get?_cons] at hg
    by_cases ha : a.1 = r
    · rw [if_pos ha] at hg
      have hold : old = a.2 := by
        have := hg.symm
        simpa using this
      subst hold
      rw [List.map_cons, if_pos (show (a.1 == r) = true by simpa using ha)]
      have htail : t.map (fun p => if p.1 == r then (r, a.2 ++ [k]) else p) =
          t.map id := by
        apply List.map_congr_left
        intro p hp
        have hpr : p.1 ≠ r := by
          intro hpr
          exact hnd2.1 (List.mem_map.mpr ⟨p, hp, hpr.trans ha.symm⟩)
        rw [if_neg (by simpa using hpr)]
        rfl
      rw [htail, List.map_id]
      simp only [List.map_cons, List.flatten_cons]
      rw [List.append_assoc, List.append_assoc]
      exact List.Perm.append_left a.2 List.perm_append_comm
    · rw [if_neg ha] at hg
      rw [List.map_cons,
        if_neg (show ¬ ((a.1 == r) = true) by simpa using ha)]
      simp only [List.map_cons, List.flatten_cons]
      rw [List.append_assoc]
      exact List.Perm.append_left a.2 (ih old hnd2.2 hg)

/-- The cluster-append update `clusters[root].append(key)` adds exactly
`key` to the multiset of clustered keys. -/
theorem flatten_vals_set (d : PyDict (List String))
    (hnd : (PyDict.keys d).Nodup) (r k : String) :
    List.Perm
      (((PyDict.entries (PyDict.set d r
          (((PyDict.get? d r).getD []) ++ [k]))).map (fun p => p.2)).flatten)
      ((((PyDict.entries d).map (fun p => p.2)).flatten) ++ [k]) := by
  by_cases hm : r ∈ PyDict.keys d
  · have hc : PyDict.contains d r = true := PyDict.contains_iff.mpr hm
    have hsome : (PyDict.get? d r).isSome = true := PyDict.isSome_get?_of_mem hm
    rcases hg : PyDict.get? d r with _ | old
    · rw [hg] at hsome; exact Bool.noConfusion hsome
    · have hset : PyDict.set d r (old ++ [k]) =
          (PyDict.entries d).map
            (fun p => if p.1 == r then (r, old ++ [k]) else p) := by
        simp only [PyDict.set]
        rw [if_pos hc]
      simp only [Option.getD_some]
      rw [hset]
      have hnd' : ((PyDict.entries d).map (fun p => p.1)).Nodup := by
        simpa [PyDict.keys, PyDict.entries] using hnd
      exact flatten_setMap_aux r k (PyDict.entries d) old hnd' hg
  · rw [PyDict.get?_eq_none_of_not_mem hm, PyDict.set_of_not_mem hm]
    apply perm_of_eq
    simp [PyDict.entries]

/-- The cluster-building fold appends exactly the processed keys, as a
multiset, to the clustered keys. -/
theorem cluster_fold_flatten :
    ∀ (ks : List String) (st : PyDict String × PyDict (List String)),
      (PyDict.keys st.2).Nodup →
      List.Perm
        (((PyDict.entries (ks.foldl cluster_step st).2).map
          (fun p => p.2)).flatten)
        ((((PyDict.entries st.2).map (fun p => p.2)).flatten) ++ ks) := by
  intro ks
  induction ks with
  | nil =>
    intro st _
    simp only [List.foldl_nil, List.append_nil]
    exact List.Perm.refl _
  | cons k ks ih =>
    intro st hnd
    simp only [List.foldl_cons]
    have hnd' : (PyDict.keys (cluster_step st k).2).Nodup :=
      PyDict.keys_nodup_set hnd _ _
    have h1 := ih (cluster_step st k) hnd'
    have h2 : List.Perm
        (((PyDict.entries (cluster_step st k).2).map (fun p => p.2)).flatten)
        ((((PyDict.entries st.2).map (fun p => p.2)).flatten) ++ [k]) :=
      flatten_vals_set st.2 hnd (ufFind st.1 k st.1.size).2 k
    exact h1.trans ((h2.append_right ks).trans (perm_of_eq (by simp)))

/-- The multiset of keys spread over all clusters is exactly the parent
map's key set. -/
theorem build_clusters_flatten (p : PyDict String) :
    List.Perm
      (((PyDict.entries (build_clusters p)).map (fun e => e.2)).flatten)
      (PyDict.keys p) := by
  have h := cluster_fold_flatten (PyDict.keys p) (p, ([] : PyDict (List String)))
    (by simp [PyDict.keys, PyDict.entries])
  simpa [build_clusters, PyDict.entries] using h

theorem create_unified_constituent_sources (cfg : MatchConfig) (n : ℕ)
    (records : List SourceRecord) (ms : List MatchResult) :
    (create_unified_constituent cfg n records ms).source_records = records :=
  rfl

/-- Each constituent's `source_records` is its cluster's key list resolved
through `record_lookup`. -/
theorem build_constituents_sources (cfg : MatchConfig)
    (record_lookup : PyDict SourceRecord)
    (all_matches : PyDict (List MatchResult))
    (clusters : PyDict (List String)) :
    (build_constituents cfg record_lookup all_matches clusters).map
        (fun c => c.source_records) =
      (PyDict.entries clusters).map
        (fun e => e.2.filterMap (fun k => record_lookup.get? k)) := by
  have haux : ∀ (es : List (String × List String))
      (acc : List UnifiedConstituent),
      (es.foldl
        (fun (acc : List UnifiedConstituent) entry =>
          let cluster_records :=
            entry.2.filterMap (fun k => record_lookup.get? k)
          let cluster_matches :=
            entry.2.foldl (fun ms k => ms ++ ((all_matches.get? k).getD [])) []
          let unique_matches := dedupMatches cluster_matches
          acc ++ [create_unified_constituent cfg acc.length cluster_records
            unique_matches]) acc).map (fun c => c.source_records) =
      acc.map (fun c => c.source_records) ++
        es.map (fun e => e.2.filterMap (fun k => record_lookup.get? k)) := by
    intro es
    induction es with
    | nil => intro acc; simp
    | cons e es ih =>
      intro acc
      simp only [List.foldl_cons]
      rw [ih]
      simp [create_unified_constituent_sources]
  have h := haux (PyDict.entries clusters) []
  rw [List.map_nil, List.nil_append] at h
  exact h

theorem flatten_entry_filterMap (f : String → Option SourceRecord) :
    ∀ L : List (String × List String),
      (L.map (fun e => e.2.filterMap f)).flatten =
        ((L.map (fun e => e.2)).flatten).filterMap f := by
  intro L
  induction L with
  | nil => rfl
  | cons e L ih => simp [List.filterMap_append, ih]

theorem filterMap_eq_self_of {α : Type} (f : α → Option α) :
    ∀ l : List α, (∀ a ∈ l, f a = some a) → l.filterMap f = l := by
  intro l
  induction l with
  | nil => intro _; rfl
  | cons a t ih =>
    intro h
    simp only [List.filterMap_cons, h a (List.mem_cons_self a t)]
    rw [ih (fun b hb => h b (List.mem_cons_of_mem a hb))]

theorem bucket_email_mem (cfg : MatchConfig) (records : List SourceRecord)
    (e : String) (c : SourceRecord)
    (hc : c ∈ (PyDict.get? (build_indices cfg records).email_index e).getD []) :
    c ∈ records := by
  rw [build_indices_email_get] at hc
  by_cases hnil : records.filter (emailBucketPred cfg e) = []
  · rw [if_pos hnil] at hc
    simp at hc
  · rw [if_neg hnil, Option.getD_some] at hc
    exact List.mem_of_mem_filter hc

theorem bucket_phone_mem (cfg : MatchConfig) (records : List SourceRecord)
    (p : String) (c : SourceRecord)
    (hc : c ∈ (PyDict.get? (build_indices cfg records).phone_index p).getD []) :
    c ∈ records := by
  rw [build_indices_phone_get] at hc
  by_cases hnil : records.filter (phoneBucketPred p) = []
  · rw [if_pos hnil] at hc
    simp at hc
  · rw [if_neg hnil, Option.getD_some] at hc
    exact List.mem_of_mem_filter hc

/-- Every match gathered in phase 1 pairs two keys of the input. -/
theorem all_matches_keys_closed (cfg : MatchConfig)
    (records : List SourceRecord) (ep : Bool) :
    ∀ e ∈ PyDict.entries
        (all_matches_dict cfg (build_indices cfg records) records ep),
      ∀ m ∈ e.2,
        m.record_a.record_key ∈ records.map (fun r => r.record_key) ∧
        m.record_b.record_key ∈ records.map (fun r => r.record_key) := by
  intro e he m hm
  rcases all_matches_dict_entries cfg (build_indices cfg records) records ep
    e he with ⟨r, hr, _, he2, _⟩
  rw [he2] at hm
  rcases find_matches_mem cfg (build_indices cfg records) r
    (if ep then some records else none) m hm with ⟨c, _, hmeq, _, hcase⟩
  have hcrec : c ∈ records := by
    rcases hcase with h | h | ⟨cs, hcs, h⟩
    · exact bucket_email_mem cfg records _ c h
    · exact bucket_phone_mem cfg records _ c h
    · cases ep with
      | false => simp at hcs
      | true =>
        have hcseq : records = cs := by simpa using hcs
        rw [← hcseq] at h
        exact h
  constructor
  · rw [hmeq, (compare_records_record_ab cfg r c).1]
    exact List.mem_map.mpr ⟨r, hr, rfl⟩
  · rw [hmeq, (compare_records_record_ab cfg r c).2]
    exact List.mem_map.mpr ⟨c, hcrec, rfl⟩

/-- C2: for every input list of source records with pairwise-distinct
record keys, the constituents returned by `unify_records` partition the
input — the concatenation of all constituents' `source_records` lists is a
permutation of the input list, so every input record appears in exactly
one constituent, exactly once, and nothing else appears. -/
theorem C2_partition (cfg : MatchConfig) (records : List SourceRecord)
    (enable_probabilistic : Bool)
    (hnd : (records.map (fun r => r.record_key)).Nodup) :
    List.Perm
      (((unify_records cfg records enable_probabilistic).map
        (fun c => c.source_records)).flatten)
      records := by
  simp only [unify_records]
  rw [build_constituents_sources, flatten_entry_filterMap]
  have hinv : UFInv (records.map (fun r => r.record_key))
      (apply_unions
        (all_matches_dict cfg (build_indices cfg records) records
          enable_probabilistic)
        (parent_init records)) :=
    apply_unions_inv _ _ (parent_init_inv records hnd)
      (all_matches_keys_closed cfg records enable_probabilistic)
  refine List.Perm.trans
    ((build_clusters_flatten _).filterMap
      (fun k => PyDict.get? (record_lookup_dict records) k)) ?_
  rw [hinv.1, List.filterMap_map]
  apply perm_of_eq
  exact filterMap_eq_self_of _ records
    (fun r hr => record_lookup_dict_get records hnd r hr)

/-- First input record of the C2 witness. -/
def c2rec1 : SourceRecord :=
  SourceRecord.postInit { source_system := "s1"
                          source_id := "1" }

/-- Second input record of the C2 witness. -/
def c2rec2 : SourceRecord :=
  SourceRecord.postInit { source_system := "s2"
                          source_id := "2" }

/-- Witness for C2: a concrete two-record input with distinct keys whose
unification flattens back to the input up to permutation. -/
theorem C2_partition_witness :
    ([c2rec1, c2rec2].map (fun r => r.record_key)).Nodup ∧
    List.Perm
      (((unify_records defaultMatchConfig [c2rec1, c2rec2] true).map
        (fun c => c.source_records)).flatten)
      [c2rec1, c2rec2] :=
  ⟨of_decide_eq_true (by with_unfolding_all rfl),
   C2_partition defaultMatchConfig [c2rec1, c2rec2] true
     (of_decide_eq_true (by with_unfolding_all rfl))⟩

/-! ## A three-element model of the union-find

For the three-record transitive-closure property the union-find always
carries exactly the three record keys, so it is simulated by a function
`Fin 3 → Fin 3`; connectivity facts over that model are decidable. -/

/-- The record key of slot `i` of a three-record input. -/
def keyOf3 (k0 k1 k2 : String) (i : Fin 3) : String :=
  if i = 0 then k0 else if i = 1 then k1 else k2

/-- Pointwise update, mirroring `parent[x] = v`. -/
def upd3 (f : Fin 3 → Fin 3) (i j : Fin 3) : Fin 3 → Fin 3 :=
  fun x => if x = i then j else f x

/-- `ufFind` transported to the three-element model (the key is always
present, so the `none` branch of the dictionary lookup disappears). -/
def find3 (f : Fin 3 → Fin 3) (x : Fin 3) : ℕ → (Fin 3 → Fin 3) × Fin 3
  | 0 => (f, x)
  | fuel + 1 =>
    let px := f x
    if px = x then (f, x)
    else
      let res := find3 f px fuel
      (upd3 res.1 x res.2, res.2)

/-- The root of `x` under fuel 3, the dictionary size of the model. -/
def root3 (f : Fin 3 → Fin 3) (x : Fin 3) : Fin 3 := (find3 f x 3).2

/-- `ufUnion` transported to the three-element model. -/
def union3 (f : Fin 3 → Fin 3) (x y : Fin 3) : Fin 3 → Fin 3 :=
  let fx := find3 f x 3
  let fy := find3 fx.1 y 3
  if fx.2 ≠ fy.2 then upd3 fy.1 fx.2 fy.2 else fy.1

/-- Well-formedness of a model state: every root is a fixpoint. -/
def ok3 (f : Fin 3 → Fin 3) : Bool :=
  decide (∀ x, f (root3 f x) = root3 f x)

theorem ok3_id : ok3 (fun x => x) = true := by decide

theorem ok3_union3 : ∀ (f : Fin 3 → Fin 3) (x y : Fin 3),
    ok3 f = true → ok3 (union3 f x y) = true := by decide

theorem union3_joins : ∀ (f : Fin 3 → Fin 3) (x y : Fin 3),
    ok3 f = true → root3 (union3 f x y) x = root3 (union3 f x y) y := by
  decide

theorem union3_coarsens : ∀ (f : Fin 3 → Fin 3) (x y a b : Fin 3),
    ok3 f = true → root3 f a = root3 f b →
      root3 (union3 f x y) a = root3 (union3 f x y) b := by decide

theorem find3_preserves : ∀ (f : Fin 3 → Fin 3) (x : Fin 3),
    ok3 f = true →
      ok3 (find3 f x 3).1 = true ∧
      ∀ a, root3 (find3 f x 3).1 a = root3 f a := by decide

theorem keyOf3_inj {k0 k1 k2 : String} (hd01 : k0 ≠ k1) (hd02 : k0 ≠ k2)
    (hd12 : k1 ≠ k2) {i j : Fin 3}
    (h : keyOf3 k0 k1 k2 i = keyOf3 k0 k1 k2 j) : i = j := by
  fin_cases i <;> fin_cases j <;>
    simp_all [keyOf3, hd01, hd02, hd12, Ne.symm hd01, Ne.symm hd02,
      Ne.symm hd12]

/-- The parent dictionary represented by the model state `f`: the three
keys in input order, each mapping to the key of its model parent. -/
def Rep3 (k0 k1 k2 : String) (p : PyDict String) (f : Fin 3 → Fin 3) :
    Prop :=
  PyDict.entries p =
    [(k0, keyOf3 k0 k1 k2 (f 0)), (k1, keyOf3 k0 k1 k2 (f 1)),
     (k2, keyOf3 k0 k1 k2 (f 2))]

theorem Rep3_size {k0 k1 k2 : String} {p : PyDict String}
    {f : Fin 3 → Fin 3} (h : Rep3 k0 k1 k2 p f) : PyDict.size p = 3 := by
  simp only [PyDict.size]
  rw [h]
  rfl

theorem Rep3_keys {k0 k1 k2 : String} {p : PyDict String}
    {f : Fin 3 → Fin 3} (h : Rep3 k0 k1 k2 p f) :
    PyDict.keys p = [k0, k1, k2] := by
  simp only [PyDict.keys]
  rw [h]
  rfl

theorem Rep3_get? {k0 k1 k2 : String} (hd01 : k0 ≠ k1) (hd02 : k0 ≠ k2)
    (hd12 : k1 ≠ k2) {p : PyDict String} {f : Fin 3 → Fin 3}
    (h : Rep3 k0 k1 k2 p f) (i : Fin 3) :
    PyDict.get? p (keyOf3 k0 k1 k2 i) = some (keyOf3 k0 k1 k2 (f i)) := by
  simp only [PyDict.get?]
  rw [h]
  fin_cases i
  · rw [List.find?_cons_of_pos _ (by simp [keyOf3])]
    rfl
  · rw [List.find?_cons_of_neg _ (by simp [keyOf3, hd01]),
      List.find?_cons_of_pos _ (by simp [keyOf3])]
    rfl
  · rw [List.find?_cons_of_neg _ (by simp [keyOf3, hd02]),
      List.find?_cons_of_neg _ (by simp [keyOf3, hd12]),
      List.find?_cons_of_pos _ (by simp [keyOf3])]
    rfl

theorem Rep3_set {k0 k1 k2 : String} (hd01 : k0 ≠ k1) (hd02 : k0 ≠ k2)
    (hd12 : k1 ≠ k2) {p : PyDict String} {f : Fin 3 → Fin 3}
    (h : Rep3 k0 k1 k2 p f) (i j : Fin 3) :
    Rep3 k0 k1 k2
      (PyDict.set p (keyOf3 k0 k1 k2 i) (keyOf3 k0 k1 k2 j))
      (upd3 f i j) := by
  have hc : PyDict.contains p (keyOf3 k0 k1 k2 i) = true :=
    PyDict.contains_iff.mpr
      (PyDict.mem_keys_of_get? (Rep3_get? hd01 hd02 hd12 h i))
  have h2 : p =
      [(k0, keyOf3 k0 k1 k2 (f 0)), (k1, keyOf3 k0 k1 k2 (f 1)),
       (k2, keyOf3 k0 k1 k2 (f 2))] := h
  show PyDict.entries _ = _
  simp only [PyDict.entries, PyDict.set, hc, if_true]
  rw [h2]
  fin_cases i <;>
    simp [keyOf3, upd3, hd01, hd02, hd12, Ne.symm hd01, Ne.symm hd02,
      Ne.symm hd12]

/-- `ufFind` on a represented state tracks `find3` exactly. -/
theorem Rep3_ufFind {k0 k1 k2 : String} (hd01 : k0 ≠ k1) (hd02 : k0 ≠ k2)
    (hd12 : k1 ≠ k2) :
    ∀ (fuel : ℕ) (p : PyDict String) (f : Fin 3 → Fin 3) (i : Fin 3),
      Rep3 k0 k1 k2 p f →
      Rep3 k0 k1 k2 (ufFind p (keyOf3 k0 k1 k2 i) fuel).1
        (find3 f i fuel).1 ∧
      (ufFind p (keyOf3 k0 k1 k2 i) fuel).2 =
        keyOf3 k0 k1 k2 ((find3 f i fuel).2) := by
  intro fuel
  induction fuel with
  | zero => intro p f i h; exact ⟨h, rfl⟩
  | succ n ih =>
    intro p f i h
    have hg := Rep3_get? hd01 hd02 hd12 h i
    have hred : ufFind p (keyOf3 k0 k1 k2 i) (n + 1) =
        (if keyOf3 k0 k1 k2 (f i) = keyOf3 k0 k1 k2 i then
          (p, keyOf3 k0 k1 k2 i)
        else
          (PyDict.set (ufFind p (keyOf3 k0 k1 k2 (f i)) n).1
              (keyOf3 k0 k1 k2 i)
              (ufFind p (keyOf3 k0 k1 k2 (f i)) n).2,
            (ufFind p (keyOf3 k0 k1 k2 (f i)) n).2)) := by
      simp only [ufFind, hg]
    have hred3 : find3 f i (n + 1) =
        (if f i = i then (f, i)
         else (upd3 (find3 f (f i) n).1 i ((find3 f (f i) n).2),
           (find3 f (f i) n).2)) := by
      simp only [find3]
    by_cases hfix : f i = i
    · rw [hred, if_pos (by rw [hfix]), hred3, if_pos hfix]
      exact ⟨h, rfl⟩
    · have hfix2 : keyOf3 k0 k1 k2 (f i) ≠ keyOf3 k0 k1 k2 i :=
        fun hcontra => hfix (keyOf3_inj hd01 hd02 hd12 hcontra)
      rw [hred, if_neg hfix2, hred3, if_neg hfix]
      rcases ih p f (f i) h with ⟨ihRep, ihRoot⟩
      constructor
      · rw [ihRoot]
        exact Rep3_set hd01 hd02 hd12 ihRep i ((find3 f (f i) n).2)
      · exact ihRoot

/-- `ufUnion` on a represented state tracks `union3` exactly. -/
theorem Rep3_ufUnion {k0 k1 k2 : String} (hd01 : k0 ≠ k1) (hd02 : k0 ≠ k2)
    (hd12 : k1 ≠ k2) {p : PyDict String} {f : Fin 3 → Fin 3}
    (h : Rep3 k0 k1 k2 p f) (x y : Fin 3) :
    Rep3 k0 k1 k2 (ufUnion p (keyOf3 k0 k1 k2 x) (keyOf3 k0 k1 k2 y))
      (union3 f x y) := by
  have hsz : PyDict.size p = 3 := Rep3_size h
  rcases Rep3_ufFind hd01 hd02 hd12 3 p f x h with ⟨hrep1, hroot1⟩
  have hsz1 : PyDict.size (ufFind p (keyOf3 k0 k1 k2 x) 3).1 = 3 :=
    Rep3_size hrep1
  rcases Rep3_ufFind hd01 hd02 hd12 3 (ufFind p (keyOf3 k0 k1 k2 x) 3).1
      (find3 f x 3).1 y hrep1 with ⟨hrep2, hroot2⟩
  have hredU : ufUnion p (keyOf3 k0 k1 k2 x) (keyOf3 k0 k1 k2 y) =
      (if (ufFind p (keyOf3 k0 k1 k2 x) 3).2 ≠
          (ufFind (ufFind p (keyOf3 k0 k1 k2 x) 3).1 (keyOf3 k0 k1 k2 y)
            3).2 then
        PyDict.set
          (ufFind (ufFind p (keyOf3 k0 k1 k2 x) 3).1 (keyOf3 k0 k1 k2 y)
            3).1
          (ufFind p (keyOf3 k0 k1 k2 x) 3).2
          (ufFind (ufFind p (keyOf3 k0 k1 k2 x) 3).1 (keyOf3 k0 k1 k2 y)
            3).2
      else
        (ufFind (ufFind p (keyOf3 k0 k1 k2 x) 3).1 (keyOf3 k0 k1 k2 y)
          3).1) := by
    simp only [ufUnion, hsz, hsz1]
  have hredu3 : union3 f x y =
      (if (find3 f x 3).2 ≠ (find3 (find3 f x 3).1 y 3).2 then
        upd3 (find3 (find3 f x 3).1 y 3).1 ((find3 f x 3).2)
          ((find3 (find3 f x 3).1 y 3).2)
      else (find3 (find3 f x 3).1 y 3).1) := rfl
  rw [hredU, hredu3, hroot1, hroot2]
  by_cases hne : (find3 f x 3).2 = (find3 (find3 f x 3).1 y 3).2
  · rw [if_neg (fun hc => hc (congrArg (keyOf3 k0 k1 k2) hne)),
      if_neg (fun hc => hc hne)]
    exact hrep2
  · rw [if_pos (fun hc => hne (keyOf3_inj hd01 hd02 hd12 hc)),
      if_pos hne]
    exact Rep3_set hd01 hd02 hd12 hrep2 ((find3 f x 3).2)
      ((find3 (find3 f x 3).1 y 3).2)

/-- Folding one match list through the union step: the result is still
represented, well-formed, only coarsens the root partition, and every
union-eligible match in the list ends with its two keys sharing a root. -/
theorem union_fold_sim {k0 k1 k2 : String} (hd01 : k0 ≠ k1)
    (hd02 : k0 ≠ k2) (hd12 : k1 ≠ k2) :
    ∀ (ms : List MatchResult) (p : PyDict String) (f : Fin 3 → Fin 3),
      Rep3 k0 k1 k2 p f → ok3 f = true →
      (∀ m ∈ ms,
        (∃ i : Fin 3, m.record_a.record_key = keyOf3 k0 k1 k2 i) ∧
        (∃ j : Fin 3, m.record_b.record_key = keyOf3 k0 k1 k2 j)) →
      ∃ g : Fin 3 → Fin 3,
        Rep3 k0 k1 k2 (ms.foldl
          (fun p m =>
            if m.match_type = .deterministic_email ∨
                m.match_type = .deterministic_phone ∨
                m.match_type = .probabilistic then
              ufUnion p m.record_a.record_key m.record_b.record_key
            else p) p) g ∧
        ok3 g = true ∧
        (∀ a b : Fin 3, root3 f a = root3 f b → root3 g a = root3 g b) ∧
        (∀ m ∈ ms,
          (m.match_type = MatchType.deterministic_email ∨
            m.match_type = MatchType.deterministic_phone ∨
            m.match_type = MatchType.probabilistic) →
          ∀ i j : Fin 3, m.record_a.record_key = keyOf3 k0 k1 k2 i →
            m.record_b.record_key = keyOf3 k0 k1 k2 j →
            root3 g i = root3 g j) := by
  intro ms
  induction ms with
  | nil =>
    intro p f hrep hok _
    exact ⟨f, hrep, hok, fun a b hab => hab,
      fun m hm => absurd hm (List.not_mem_nil m)⟩
  | cons m ms ih =>
    intro p f hrep hok hcl
    rcases hcl m (List.mem_cons_self m ms) with ⟨⟨i, hi⟩, ⟨j, hj⟩⟩
    simp only [List.foldl_cons]
    by_cases helig : m.match_type = MatchType.deterministic_email ∨
        m.match_type = MatchType.deterministic_phone ∨
        m.match_type = MatchType.probabilistic
    · rw [if_pos helig, hi, hj]
      have hrep1 : Rep3 k0 k1 k2
          (ufUnion p (keyOf3 k0 k1 k2 i) (keyOf3 k0 k1 k2 j))
          (union3 f i j) := Rep3_ufUnion hd01 hd02 hd12 hrep i j
      have hok1 : ok3 (union3 f i j) = true := ok3_union3 f i j hok
      rcases ih _ (union3 f i j) hrep1 hok1
          (fun m2 hm2 => hcl m2 (List.mem_cons_of_mem m hm2)) with
        ⟨g, hgrep, hgok, hgco, hgconn⟩
      refine ⟨g, hgrep, hgok, ?_, ?_⟩
      · intro a b hab
        exact hgco a b (union3_coarsens f i j a b hok hab)
      · intro m2 hm2 helig2 i2 j2 hi2 hj2
        rcases List.mem_cons.mp hm2 with hm2 | hm2
        · subst hm2
          have hii : i2 = i :=
            keyOf3_inj hd01 hd02 hd12 (hi2.symm.trans hi)
          have hjj : j2 = j :=
            keyOf3_inj hd01 hd02 hd12 (hj2.symm.trans hj)
          rw [hii, hjj]
          exact hgco i j (union3_joins f i j hok)
        · exact hgconn m2 hm2 helig2 i2 j2 hi2 hj2
    · rw [if_neg helig]
      rcases ih p f hrep hok
          (fun m2 hm2 => hcl m2 (List.mem_cons_of_mem m hm2)) with
        ⟨g, hgrep, hgok, hgco, hgconn⟩
      refine ⟨g, hgrep, hgok, hgco, ?_⟩
      intro m2 hm2 helig2 i2 j2 hi2 hj2
      rcases List.mem_cons.mp hm2 with hm2 | hm2
      · subst hm2
        exact absurd helig2 helig
      · exact hgconn m2 hm2 helig2 i2 j2 hi2 hj2

/-- The full phase-2 fold over the gathered matches, simulated in the
three-element model. -/
theorem apply_unions_sim {k0 k1 k2 : String} (hd01 : k0 ≠ k1)
    (hd02 : k0 ≠ k2) (hd12 : k1 ≠ k2) :
    ∀ (es : List (String × List MatchResult)) (p : PyDict String)
      (f : Fin 3 → Fin 3),
      Rep3 k0 k1 k2 p f → ok3 f = true →
      (∀ e ∈ es, ∀ m ∈ e.2,
        (∃ i : Fin 3, m.record_a.record_key = keyOf3 k0 k1 k2 i) ∧
        (∃ j : Fin 3, m.record_b.record_key = keyOf3 k0 k1 k2 j)) →
      ∃ g : Fin 3 → Fin 3,
        Rep3 k0 k1 k2 (es.foldl
          (fun p entry =>
            entry.2.foldl
              (fun p m =>
                if m.match_type = .deterministic_email ∨
                    m.match_type = .deterministic_phone ∨
                    m.match_type = .probabilistic then
                  ufUnion p m.record_a.record_key m.record_b.record_key
                else p)
              p) p) g ∧
        ok3 g = true ∧
        (∀ a b : Fin 3, root3 f a = root3 f b → root3 g a = root3 g b) ∧
        (∀ e ∈ es, ∀ m ∈ e.2,
          (m.match_type = MatchType.deterministic_email ∨
            m.match_type = MatchType.deterministic_phone ∨
            m.match_type = MatchType.probabilistic) →
          ∀ i j : Fin 3, m.record_a.record_key = keyOf3 k0 k1 k2 i →
            m.record_b.record_key = keyOf3 k0 k1 k2 j →
            root3 g i = root3 g j) := by
  intro es
  induction es with
  | nil =>
    intro p f hrep hok _
    exact ⟨f, hrep, hok, fun a b hab => hab,
      fun e he => absurd he (List.not_mem_nil e)⟩
  | cons e es ih =>
    intro p f hrep hok hcl
    simp only [List.foldl_cons]
    rcases union_fold_sim hd01 hd02 hd12 e.2 p f hrep hok
        (hcl e (List.mem_cons_self e es)) with
      ⟨f1, hrep1, hok1, hco1, hconn1⟩
    rcases ih _ f1 hrep1 hok1
        (fun e2 he2 => hcl e2 (List.mem_cons_of_mem e he2)) with
      ⟨g, hgrep, hgok, hgco, hgconn⟩
    refine ⟨g, hgrep, hgok, ?_, ?_⟩
    · intro a b hab
      exact hgco a b (hco1 a b hab)
    · intro e2 he2 m hm helig i j hi hj
      rcases List.mem_cons.mp he2 with he2 | he2
      · subst he2
        exact hgco i j (hconn1 m hm helig i j hi hj)
      · exact hgconn e2 he2 m hm helig i j hi hj

/-- When the three keys share one union-find root, the cluster loop
produces a single cluster holding the three keys in input order. -/
theorem build_clusters_connected {k0 k1 k2 : String} (hd01 : k0 ≠ k1)
    (hd02 : k0 ≠ k2) (hd12 : k1 ≠ k2) {p : PyDict String}
    {g : Fin 3 → Fin 3} (hrep : Rep3 k0 k1 k2 p g) (hok : ok3 g = true)
    (h01 : root3 g 0 = root3 g 1) (h12 : root3 g 1 = root3 g 2) :
    PyDict.entries (build_clusters p) =
      [(keyOf3 k0 k1 k2 (root3 g 0), [k0, k1, k2])] := by
  have hsz : PyDict.size p = 3 := Rep3_size hrep
  rcases Rep3_ufFind hd01 hd02 hd12 3 p g 0 hrep with ⟨hrep1, hroot1⟩
  rcases find3_preserves g 0 hok with ⟨hok1, hpres1⟩
  rcases Rep3_ufFind hd01 hd02 hd12 3 (ufFind p (keyOf3 k0 k1 k2 0) 3).1
      (find3 g 0 3).1 1 hrep1 with ⟨hrep2, hroot2⟩
  rcases find3_preserves (find3 g 0 3).1 1 hok1 with ⟨hok2, hpres2⟩
  rcases Rep3_ufFind hd01 hd02 hd12 3
      (ufFind (ufFind p (keyOf3 k0 k1 k2 0) 3).1 (keyOf3 k0 k1 k2 1) 3).1
      (find3 (find3 g 0 3).1 1 3).1 2 hrep2 with ⟨hrep3, hroot3⟩
  have hrep1k : Rep3 k0 k1 k2 (ufFind p k0 3).1 (find3 g 0 3).1 := hrep1
  have e1 : (ufFind p k0 3).2 = keyOf3 k0 k1 k2 (root3 g 0) := hroot1
  have hrep2k : Rep3 k0 k1 k2 (ufFind (ufFind p k0 3).1 k1 3).1
      (find3 (find3 g 0 3).1 1 3).1 := hrep2
  have e2 : (ufFind (ufFind p k0 3).1 k1 3).2 =
      keyOf3 k0 k1 k2 (root3 g 0) := by
    have hstep : (ufFind (ufFind p k0 3).1 k1 3).2 =
        keyOf3 k0 k1 k2 ((find3 (find3 g 0 3).1 1 3).2) := hroot2
    rw [hstep]
    have hr : (find3 (find3 g 0 3).1 1 3).2 = root3 g 0 := by
      show root3 (find3 g 0 3).1 1 = root3 g 0
      rw [hpres1 1]
      exact h01.symm
    rw [hr]
  have e3 : (ufFind (ufFind (ufFind p k0 3).1 k1 3).1 k2 3).2 =
      keyOf3 k0 k1 k2 (root3 g 0) := by
    have hstep : (ufFind (ufFind (ufFind p k0 3).1 k1 3).1 k2 3).2 =
        keyOf3 k0 k1 k2 ((find3 (find3 (find3 g 0 3).1 1 3).1 2 3).2) :=
      hroot3
    rw [hstep]
    have hr : (find3 (find3 (find3 g 0 3).1 1 3).1 2 3).2 = root3 g 0 := by
      show root3 (find3 (find3 g 0 3).1 1 3).1 2 = root3 g 0
      rw [hpres2 2, hpres1 2, ← h12, ← h01]
    rw [hr]
  have hkeys : PyDict.keys p = [k0, k1, k2] := Rep3_keys hrep
  have hc1 : cluster_step (p, ([] : PyDict (List String))) k0 =
      ((ufFind p k0 3).1,
        [(keyOf3 k0 k1 k2 (root3 g 0), [k0])]) := by
    simp only [cluster_step]
    rw [hsz, e1]
    rfl
  have hc2 : cluster_step ((ufFind p k0 3).1,
        ([(keyOf3 k0 k1 k2 (root3 g 0), [k0])] : PyDict (List String)))
        k1 =
      ((ufFind (ufFind p k0 3).1 k1 3).1,
        [(keyOf3 k0 k1 k2 (root3 g 0), [k0, k1])]) := by
    simp only [cluster_step]
    rw [Rep3_size hrep1k, e2, PyDict.get?_cons, if_pos rfl]
    simp [PyDict.set, PyDict.contains, PyDict.entries]
  have hc3 : cluster_step ((ufFind (ufFind p k0 3).1 k1 3).1,
        ([(keyOf3 k0 k1 k2 (root3 g 0), [k0, k1])] : PyDict (List String)))
        k2 =
      ((ufFind (ufFind (ufFind p k0 3).1 k1 3).1 k2 3).1,
        [(keyOf3 k0 k1 k2 (root3 g 0), [k0, k1, k2])]) := by
    simp only [cluster_step]
    rw [Rep3_size hrep2k, e3, PyDict.get?_cons, if_pos rfl]
    simp [PyDict.set, PyDict.contains, PyDict.entries]
  simp only [build_clusters, hkeys, List.foldl_cons, List.foldl_nil]
  rw [hc1, hc2, hc3]
  rfl

/-- C3: for three records with distinct keys, if `compare_records (A, B)`
and `compare_records (B, C)` each return a union-eligible kind
(deterministic-email, deterministic-phone or probabilistic) while
`compare_records (A, C)` scores below the review threshold, then
`unify_records [A, B, C]` returns a single constituent whose
`source_records` are exactly `[A, B, C]`. -/
theorem C3_transitive_closure (cfg : MatchConfig) (A B C : SourceRecord)
    (hnd : ([A, B, C].map (fun r => r.record_key)).Nodup)
    (hAB : (compare_records cfg A B).match_type =
        MatchType.deterministic_email ∨
      (compare_records cfg A B).match_type =
        MatchType.deterministic_phone ∨
      (compare_records cfg A B).match_type = MatchType.probabilistic)
    (hBC : (compare_records cfg B C).match_type =
        MatchType.deterministic_email ∨
      (compare_records cfg B C).match_type =
        MatchType.deterministic_phone ∨
      (compare_records cfg B C).match_type = MatchType.probabilistic)
    (hAC : (compare_records cfg A C).confidence < cfg.review_threshold) :
    (unify_records cfg [A, B, C] true).map (fun c => c.source_records) =
      [[A, B, C]] := by
  have hnd1 : A.record_key ∉ [B.record_key, C.record_key] ∧
      ([B.record_key, C.record_key]).Nodup := List.nodup_cons.mp hnd
  have hnd2 : B.record_key ∉ [C.record_key] ∧ ([C.record_key]).Nodup :=
    List.nodup_cons.mp hnd1.2
  have hd01 : A.record_key ≠ B.record_key := fun hc =>
    hnd1.1 (by rw [hc]; exact List.mem_cons_self _ _)
  have hd02 : A.record_key ≠ C.record_key := fun hc =>
    hnd1.1 (by rw [hc]; exact List.mem_cons_of_mem _ (List.mem_cons_self _ _))
  have hd12 : B.record_key ≠ C.record_key := fun hc =>
    hnd2.1 (by rw [hc]; exact List.mem_cons_self _ _)
  have hABmem : compare_records cfg A B ∈
      find_matches cfg (build_indices cfg [A, B, C]) A (some [A, B, C]) := by
    refine (find_matches_perm cfg [A, B, C] A hnd).mem_iff.mpr ?_
    refine List.mem_map.mpr ⟨B, ?_, rfl⟩
    refine List.mem_filter.mpr ⟨by simp, ?_⟩
    have h1 : (B.record_key == A.record_key) = false := by
      simpa using Ne.symm hd01
    have h2 : (compare_records cfg A B).match_type ≠ MatchType.no_match := by
      rcases hAB with h | h | h <;> rw [h] <;> intro hc <;>
        exact MatchType.noConfusion hc
    simp [h1, h2]
  have hBCmem : compare_records cfg B C ∈
      find_matches cfg (build_indices cfg [A, B, C]) B (some [A, B, C]) := by
    refine (find_matches_perm cfg [A, B, C] B hnd).mem_iff.mpr ?_
    refine List.mem_map.mpr ⟨C, ?_, rfl⟩
    refine List.mem_filter.mpr ⟨by simp, ?_⟩
    have h1 : (C.record_key == B.record_key) = false := by
      simpa using Ne.symm hd12
    have h2 : (compare_records cfg B C).match_type ≠ MatchType.no_match := by
      rcases hBC with h | h | h <;> rw [h] <;> intro hc <;>
        exact MatchType.noConfusion hc
    simp [h1, h2]
  have hAne : find_matches cfg (build_indices cfg [A, B, C]) A
      (if true then some [A, B, C] else none) ≠ [] :=
    List.ne_nil_of_mem hABmem
  have hBne : find_matches cfg (build_indices cfg [A, B, C]) B
      (if true then some [A, B, C] else none) ≠ [] :=
    List.ne_nil_of_mem hBCmem
  have hgetA := all_matches_dict_get cfg (build_indices cfg [A, B, C])
    [A, B, C] true hnd A (by simp) hAne
  have hgetB := all_matches_dict_get cfg (build_indices cfg [A, B, C])
    [A, B, C] true hnd B (by simp) hBne
  have hentryA := PyDict.get?_mem hgetA
  have hentryB := PyDict.get?_mem hgetB
  have hrep0 : Rep3 A.record_key B.record_key C.record_key
      (parent_init [A, B, C]) (fun x => x) := by
    show PyDict.entries _ = _
    rw [parent_init_spec [A, B, C] hnd]
    rfl
  have hclosure : ∀ e ∈ PyDict.entries (all_matches_dict cfg
      (build_indices cfg [A, B, C]) [A, B, C] true),
      ∀ m ∈ e.2,
        (∃ i : Fin 3, m.record_a.record_key =
          keyOf3 A.record_key B.record_key C.record_key i) ∧
        (∃ j : Fin 3, m.record_b.record_key =
          keyOf3 A.record_key B.record_key C.record_key j) := by
    intro e he m hm
    rcases all_matches_keys_closed cfg [A, B, C] true e he m hm with ⟨ha, hb⟩
    constructor
    · have ha2 : m.record_a.record_key ∈
          [A.record_key, B.record_key, C.record_key] := ha
      simp only [List.mem_cons, List.not_mem_nil, or_false] at ha2
      rcases ha2 with h | h | h
      · exact ⟨0, h⟩
      · exact ⟨1, h⟩
      · exact ⟨2, h⟩
    · have hb2 : m.record_b.record_key ∈
          [A.record_key, B.record_key, C.record_key] := hb
      simp only [List.mem_cons, List.not_mem_nil, or_false] at hb2
      rcases hb2 with h | h | h
      · exact ⟨0, h⟩
      · exact ⟨1, h⟩
      · exact ⟨2, h⟩
  rcases apply_unions_sim hd01 hd02 hd12
      (PyDict.entries (all_matches_dict cfg (build_indices cfg [A, B, C])
        [A, B, C] true))
      (parent_init [A, B, C]) (fun x => x) hrep0 ok3_id hclosure with
    ⟨g, hgrep, hgok, hgco, hgconn⟩
  have hpar : Rep3 A.record_key B.record_key C.record_key
      (apply_unions (all_matches_dict cfg (build_indices cfg [A, B, C])
        [A, B, C] true) (parent_init [A, B, C])) g := hgrep
  have hconn01 : root3 g 0 = root3 g 1 := by
    refine hgconn (A.record_key,
        find_matches cfg (build_indices cfg [A, B, C]) A
          (if true then some [A, B, C] else none)) hentryA
      (compare_records cfg A B) hABmem hAB 0 1 ?_ ?_
    · exact (congrArg (fun r => r.record_key)
        (compare_records_record_ab cfg A B).1).trans rfl
    · exact (congrArg (fun r => r.record_key)
        (compare_records_record_ab cfg A B).2).trans rfl
  have hconn12 : root3 g 1 = root3 g 2 := by
    refine hgconn (B.record_key,
        find_matches cfg (build_indices cfg [A, B, C]) B
          (if true then some [A, B, C] else none)) hentryB
      (compare_records cfg B C) hBCmem hBC 1 2 ?_ ?_
    · exact (congrArg (fun r => r.record_key)
        (compare_records_record_ab cfg B C).1).trans rfl
    · exact (congrArg (fun r => r.record_key)
        (compare_records_record_ab cfg B C).2).trans rfl
  have hclusters := build_clusters_connected hd01 hd02 hd12 hpar hgok
    hconn01 hconn12
  simp only [unify_records]
  rw [build_constituents_sources, hclusters]
  have hA := record_lookup_dict_get [A, B, C] hnd A (by simp)
  have hB := record_lookup_dict_get [A, B, C] hnd B (by simp)
  have hC := record_lookup_dict_get [A, B, C] hnd C (by simp)
  simp [List.filterMap_cons, hA, hB, hC]

/-- C3 witness record A: shares an email with B only. -/
def c3recA : SourceRecord :=
  SourceRecord.postInit { source_system := "s1"
                          source_id := "1"
                          email := some "x@a.com" }

/-- C3 witness record B: shares an email with A and a phone with C. -/
def c3recB : SourceRecord :=
  SourceRecord.postInit { source_system := "s2"
                          source_id := "2"
                          email := some "x@a.com"
                          phone := some "3125550000" }

/-- C3 witness record C: shares a phone with B only. -/
def c3recC : SourceRecord :=
  SourceRecord.postInit { source_system := "s3"
                          source_id := "3"
                          phone := some "3125550000" }

/-- Witness for C3: A deterministically matches B by email, B matches C
by phone, A and C score 0 against each other, and unification of the
three yields a single constituent holding all of them. -/
theorem C3_transitive_closure_witness :
    (([c3recA, c3recB, c3recC].map (fun r => r.record_key)).Nodup ∧
      (compare_records defaultMatchConfig c3recA c3recB).match_type =
        MatchType.deterministic_email ∧
      (compare_records defaultMatchConfig c3recB c3recC).match_type =
        MatchType.deterministic_phone ∧
      (compare_records defaultMatchConfig c3recA c3recC).confidence <
        defaultMatchConfig.review_threshold) ∧
    (unify_records defaultMatchConfig [c3recA, c3recB, c3recC] true).map
        (fun c => c.source_records) = [[c3recA, c3recB, c3recC]] :=
  ⟨⟨of_decide_eq_true (by with_unfolding_all rfl),
    of_decide_eq_true (by with_unfolding_all rfl),
    of_decide_eq_true (by with_unfolding_all rfl),
    of_decide_eq_true (by with_unfolding_all rfl)⟩,
   C3_transitive_closure defaultMatchConfig c3recA c3recB c3recC
     (of_decide_eq_true (by with_unfolding_all rfl))
     (Or.inl (of_decide_eq_true (by with_unfolding_all rfl)))
     (Or.inr (Or.inl (of_decide_eq_true (by with_unfolding_all rfl))))
     (of_decide_eq_true (by with_unfolding_all rfl))⟩

/-! ## C1: manual-review pairs stay separate, but their match results are
kept in the constituents' histories -/

/-- When no gathered match has a union-eligible kind, phase 2 leaves the
parent map untouched. -/
theorem apply_unions_no_eligible (am : PyDict (List MatchResult))
    (p0 : PyDict String)
    (h : ∀ e ∈ PyDict.entries am, ∀ m ∈ e.2,
      ¬(m.match_type = MatchType.deterministic_email ∨
        m.match_type = MatchType.deterministic_phone ∨
        m.match_type = MatchType.probabilistic)) :
    apply_unions am p0 = p0 := by
  have hinner : ∀ (ms : List MatchResult) (p : PyDict String),
      (∀ m ∈ ms,
        ¬(m.match_type = MatchType.deterministic_email ∨
          m.match_type = MatchType.deterministic_phone ∨
          m.match_type = MatchType.probabilistic)) →
      ms.foldl
        (fun p m =>
          if m.match_type = .deterministic_email ∨
              m.match_type = .deterministic_phone ∨
              m.match_type = .probabilistic then
            ufUnion p m.record_a.record_key m.record_b.record_key
          else p) p = p := by
    intro ms
    induction ms with
    | nil => intro p _; rfl
    | cons m ms ih =>
      intro p hms
      simp only [List.foldl_cons]
      rw [if_neg (hms m (List.mem_cons_self m ms))]
      exact ih p (fun m2 hm2 => hms m2 (List.mem_cons_of_mem m hm2))
  have houter : ∀ (es : List (String × List MatchResult)) (p : PyDict String),
      (∀ e ∈ es, ∀ m ∈ e.2,
        ¬(m.match_type = MatchType.deterministic_email ∨
          m.match_type = MatchType.deterministic_phone ∨
          m.match_type = MatchType.probabilistic)) →
      es.foldl
        (fun p entry =>
          entry.2.foldl
            (fun p m =>
              if m.match_type = .deterministic_email ∨
                  m.match_type = .deterministic_phone ∨
                  m.match_type = .probabilistic then
                ufUnion p m.record_a.record_key m.record_b.record_key
              else p) p) p = p := by
    intro es
    induction es with
    | nil => intro p _; rfl
    | cons e es ih =>
      intro p hes
      simp only [List.foldl_cons]
      rw [hinner e.2 p (hes e (List.mem_cons_self e es))]
      exact ih p (fun e2 he2 => hes e2 (List.mem_cons_of_mem e he2))
  exact houter (PyDict.entries am) p0 h

/-- A two-key identity parent map clusters each key by itself. -/
theorem build_clusters_two (k0 k1 : String) (hne : k0 ≠ k1) :
    build_clusters [(k0, k0), (k1, k1)] = [(k0, [k0]), (k1, [k1])] := by
  have hget0 : PyDict.get? [(k0, k0), (k1, k1)] k0 = some k0 := by
    simp only [PyDict.get?, PyDict.entries]
    rw [List.find?_cons_of_pos _ (by simp)]
    rfl
  have hget1 : PyDict.get? [(k0, k0), (k1, k1)] k1 = some k1 := by
    simp only [PyDict.get?, PyDict.entries]
    rw [List.find?_cons_of_neg _ (by simp [hne]),
      List.find?_cons_of_pos _ (by simp)]
    rfl
  have hfind0 : ufFind [(k0, k0), (k1, k1)] k0 2 =
      ([(k0, k0), (k1, k1)], k0) := by
    simp only [ufFind, hget0]
    simp
  have hfind1 : ufFind [(k0, k0), (k1, k1)] k1 2 =
      ([(k0, k0), (k1, k1)], k1) := by
    simp only [ufFind, hget1]
    simp
  have hstep1 : cluster_step (([(k0, k0), (k1, k1)] : PyDict String),
        ([] : PyDict (List String))) k0 =
      ([(k0, k0), (k1, k1)], [(k0, [k0])]) := by
    simp only [cluster_step]
    rw [show PyDict.size ([(k0, k0), (k1, k1)] : PyDict String) = 2 from rfl,
      hfind0]
    rfl
  have hstep2 : cluster_step (([(k0, k0), (k1, k1)] : PyDict String),
        ([(k0, [k0])] : PyDict (List String))) k1 =
      ([(k0, k0), (k1, k1)], [(k0, [k0]), (k1, [k1])]) := by
    simp only [cluster_step]
    rw [show PyDict.size ([(k0, k0), (k1, k1)] : PyDict String) = 2 from rfl,
      hfind1]
    simp [PyDict.set, PyDict.contains, PyDict.entries, PyDict.get?, hne]
  simp only [build_clusters]
  rw [show PyDict.keys ([(k0, k0), (k1, k1)] : PyDict String) = [k0, k1]
    from rfl]
  simp only [List.foldl_cons, List.foldl_nil]
  rw [hstep1, hstep2]

theorem create_unified_constituent_history (cfg : MatchConfig) (n : ℕ)
    (records : List SourceRecord) (ms : List MatchResult) :
    (create_unified_constituent cfg n records ms).match_history = ms :=
  rfl

theorem dedupMatches_singleton (m : MatchResult) :
    dedupMatches [m] = [m] := rfl

/-- C1 (amended): two records with distinct keys whose comparison is
manual-review in both directions end up in two separate singleton
constituents — but, contrary to the claim, the manual-review match result
does appear in each constituent's `match_history` (it is retained for
audit, not discarded). -/
theorem C1_manual_review_amended (cfg : MatchConfig) (a b : SourceRecord)
    (hnd : ([a, b].map (fun r => r.record_key)).Nodup)
    (hab : (compare_records cfg a b).match_type = MatchType.manual_review)
    (hba : (compare_records cfg b a).match_type = MatchType.manual_review) :
    (unify_records cfg [a, b] true).map
        (fun c => (c.source_records, c.match_history)) =
      [([a], [compare_records cfg a b]), ([b], [compare_records cfg b a])] := by
  have hnd1 : a.record_key ∉ [b.record_key] ∧ ([b.record_key]).Nodup :=
    List.nodup_cons.mp hnd
  have hdab : a.record_key ≠ b.record_key := fun hc =>
    hnd1.1 (by rw [hc]; exact List.mem_cons_self _ _)
  have hfa : find_matches cfg (build_indices cfg [a, b]) a (some [a, b]) =
      [compare_records cfg a b] := by
    have hfilter : [a, b].filter (fun c => !(c.record_key == a.record_key) &&
        decide ((compare_records cfg a c).match_type ≠
          MatchType.no_match)) = [b] := by
      have hcond : (!(b.record_key == a.record_key) &&
          decide ((compare_records cfg a b).match_type ≠
            MatchType.no_match)) = true := by
        have h1 : (b.record_key == a.record_key) = false := by
          simpa using Ne.symm hdab
        have h2 : (compare_records cfg a b).match_type ≠
            MatchType.no_match := by
          rw [hab]
          intro hc
          exact MatchType.noConfusion hc
        simp [h1, h2]
      rw [List.filter_cons, List.filter_cons, List.filter_nil,
        if_neg (by simp), if_pos hcond]
    have h := find_matches_perm cfg [a, b] a hnd
    rw [hfilter] at h
    exact List.perm_singleton.mp (by simpa using h)
  have hfb : find_matches cfg (build_indices cfg [a, b]) b (some [a, b]) =
      [compare_records cfg b a] := by
    have hfilter : [a, b].filter (fun c => !(c.record_key == b.record_key) &&
        decide ((compare_records cfg b c).match_type ≠
          MatchType.no_match)) = [a] := by
      have hcond : (!(a.record_key == b.record_key) &&
          decide ((compare_records cfg b a).match_type ≠
            MatchType.no_match)) = true := by
        have h1 : (a.record_key == b.record_key) = false := by
          simpa using hdab
        have h2 : (compare_records cfg b a).match_type ≠
            MatchType.no_match := by
          rw [hba]
          intro hc
          exact MatchType.noConfusion hc
        simp [h1, h2]
      rw [List.filter_cons, List.filter_cons, List.filter_nil,
        if_pos hcond, if_neg (by simp)]
    have h := find_matches_perm cfg [a, b] b hnd
    rw [hfilter] at h
    exact List.perm_singleton.mp (by simpa using h)
  have hAne : find_matches cfg (build_indices cfg [a, b]) a
      (if true then some [a, b] else none) ≠ [] := by
    have h2 : find_matches cfg (build_indices cfg [a, b]) a
        (some [a, b]) ≠ [] := by
      rw [hfa]
      exact List.cons_ne_nil _ _
    exact h2
  have hBne : find_matches cfg (build_indices cfg [a, b]) b
      (if true then some [a, b] else none) ≠ [] := by
    have h2 : find_matches cfg (build_indices cfg [a, b]) b
        (some [a, b]) ≠ [] := by
      rw [hfb]
      exact List.cons_ne_nil _ _
    exact h2
  have hgetA := all_matches_dict_get cfg (build_indices cfg [a, b]) [a, b]
    true hnd a (by simp) hAne
  have hgetB := all_matches_dict_get cfg (build_indices cfg [a, b]) [a, b]
    true hnd b (by simp) hBne
  have hgetA2 : PyDict.get? (all_matches_dict cfg (build_indices cfg [a, b])
      [a, b] true) a.record_key = some [compare_records cfg a b] := by
    rw [hgetA]
    exact congrArg some hfa
  have hgetB2 : PyDict.get? (all_matches_dict cfg (build_indices cfg [a, b])
      [a, b] true) b.record_key = some [compare_records cfg b a] := by
    rw [hgetB]
    exact congrArg some hfb
  have hmanual : ∀ e ∈ PyDict.entries (all_matches_dict cfg
      (build_indices cfg [a, b]) [a, b] true), ∀ m ∈ e.2,
      ¬(m.match_type = MatchType.deterministic_email ∨
        m.match_type = MatchType.deterministic_phone ∨
        m.match_type = MatchType.probabilistic) := by
    intro e he m hm
    rcases all_matches_dict_entries cfg (build_indices cfg [a, b]) [a, b]
      true e he with ⟨r, hr, _, he2, _⟩
    rw [he2] at hm
    have hr2 : r = a ∨ r = b := by simpa using hr
    rcases hr2 with rfl | rfl
    · have hm2 : m ∈ [compare_records cfg r b] := by
        rw [← hfa]
        exact hm
      have hm3 : m = compare_records cfg r b := by simpa using hm2
      rw [hm3]
      intro helig
      rcases helig with h | h | h <;> rw [hab] at h <;>
        exact MatchType.noConfusion h
    · have hm2 : m ∈ [compare_records cfg r a] := by
        rw [← hfb]
        exact hm
      have hm3 : m = compare_records cfg r a := by simpa using hm2
      rw [hm3]
      intro helig
      rcases helig with h | h | h <;> rw [hba] at h <;>
        exact MatchType.noConfusion h
  have hlookA := record_lookup_dict_get [a, b] hnd a (by simp)
  have hlookB := record_lookup_dict_get [a, b] hnd b (by simp)
  simp only [unify_records]
  rw [apply_unions_no_eligible _ _ hmanual]
  rw [show parent_init [a, b] =
      [(a.record_key, a.record_key), (b.record_key, b.record_key)] from
    parent_init_spec [a, b] hnd]
  rw [build_clusters_two a.record_key b.record_key hdab]
  simp [build_constituents, PyDict.entries, List.filterMap_cons, hlookA,
    hlookB, hgetA2, hgetB2, dedupMatches_singleton,
    create_unified_constituent_sources, create_unified_constituent_history]

/-- C1 counterexample record: john smith at 123 main st. -/
def c1recA : SourceRecord :=
  SourceRecord.postInit { source_system := "s1"
                          source_id := "1"
                          email := some "john1@x.com"
                          first_name := some "john"
                          last_name := some "smith"
                          address_line1 := some "123 main st"
                          zip_code := some "60601" }

/-- C1 counterexample record: john smyth at the same address. -/
def c1recB : SourceRecord :=
  SourceRecord.postInit { source_system := "s2"
                          source_id := "2"
                          email := some "john2@x.com"
                          first_name := some "john"
                          last_name := some "smyth"
                          address_line1 := some "123 main st"
                          zip_code := some "60601" }

/-- C1 counterexample: the pair compares to a manual-review result with
confidence strictly between the review and auto-match thresholds; the two
records do land in separate constituents, but the manual-review match
result appears in each constituent's `match_history` — refuting the
claim that it appears in neither. -/
theorem C1_manual_review_counterexample :
    (compare_records defaultMatchConfig c1recA c1recB).match_type =
      MatchType.manual_review ∧
    defaultMatchConfig.review_threshold <
      (compare_records defaultMatchConfig c1recA c1recB).confidence ∧
    (compare_records defaultMatchConfig c1recA c1recB).confidence <
      defaultMatchConfig.auto_match_threshold ∧
    (unify_records defaultMatchConfig [c1recA, c1recB] true).map
        (fun c => c.source_records) = [[c1recA], [c1recB]] ∧
    (unify_records defaultMatchConfig [c1recA, c1recB] true).map
        (fun c => c.match_history) =
      [[compare_records defaultMatchConfig c1recA c1recB],
       [compare_records defaultMatchConfig c1recB c1recA]] ∧
    compare_records defaultMatchConfig c1recA c1recB ∈
      ((unify_records defaultMatchConfig [c1recA, c1recB] true).map
        (fun c => c.match_history)).flatten :=
  of_decide_eq_true (by with_unfolding_all rfl)

/-- Witness for the amended C1 theorem at the concrete counterexample
pair. -/
theorem C1_manual_review_amended_witness :
    (([c1recA, c1recB].map (fun r => r.record_key)).Nodup ∧
      (compare_records defaultMatchConfig c1recA c1recB).match_type =
        MatchType.manual_review ∧
      (compare_records defaultMatchConfig c1recB c1recA).match_type =
        MatchType.manual_review) ∧
    (unify_records defaultMatchConfig [c1recA, c1recB] true).map
        (fun c => (c.source_records, c.match_history)) =
      [([c1recA], [compare_records defaultMatchConfig c1recA c1recB]),
       ([c1recB], [compare_records defaultMatchConfig c1recB c1recA])] :=
  ⟨⟨of_decide_eq_true (by with_unfolding_all rfl),
    of_decide_eq_true (by with_unfolding_all rfl),
    of_decide_eq_true (by with_unfolding_all rfl)⟩,
   C1_manual_review_amended defaultMatchConfig c1recA c1recB
     (of_decide_eq_true (by with_unfolding_all rfl))
     (of_decide_eq_true (by with_unfolding_all rfl))
     (of_decide_eq_true (by with_unfolding_all rfl))⟩
